import Mathlib

/-!
Verification of the reconciliation engine and hooks runtime of a minimal
UI rendering library (a small React-like renderer).

The development shallowly embeds the TypeScript sources:
  * `src/packages/react/src/core/elements.ts`   (`createChildPath`)
  * `src/packages/react/src/core/reconciler.ts` (`reconcile`, `mount`, `update`,
    `reconcileChildren`)
  * `src/packages/react/src/core/render.ts`     (`render`, effect flush)
  * `src/unnamed/part_000` (dom.ts: `setDomProps`, `updateDomProps`,
    `getDomNodes`, `removeInstance`)
  * `src/unnamed/part_001` (hooks.ts: `cleanupUnusedHooks`, `useState`,
    `useEffect`)
  * `src/unnamed/part_005` (equality utilities `shallowEquals`, `deepEquals`)

JavaScript values are modelled by the inductive `JsVal`; reference identity of
arrays / plain objects / functions is modelled by an explicit `ref : Nat`
carried by the composite constructors, so that strict equality (`===`) and
`Object.is` compare composites by reference only, as in JavaScript.  Numbers
are modelled as `Int` (the claims under study do not involve NaN / -0 / float
arithmetic, where `===` and `Object.is` differ).
-/

set_option linter.unusedVariables false

/-- A JavaScript runtime value.  Composite values (`arr`, `obj`, `fn`) carry an
explicit reference identity `ref`; two composites are `===`-equal iff their
refs coincide. -/
inductive JsVal : Type where
  | undefined : JsVal
  | null : JsVal
  | bool (b : Bool) : JsVal
  | num (n : Int) : JsVal
  | str (s : String) : JsVal
  | arr (ref : Nat) (elems : List JsVal) : JsVal
  | obj (ref : Nat) (fields : List (String × JsVal)) : JsVal
  | fn (ref : Nat) : JsVal

/-- JavaScript strict equality `===` on the modelled value domain:
structural on primitives, reference identity on composites. -/
def strictEq : JsVal → JsVal → Bool
  | .undefined, .undefined => true
  | .null, .null => true
  | .bool a, .bool b => a == b
  | .num a, .num b => a == b
  | .str a, .str b => a == b
  | .arr r _, .arr r' _ => r == r'
  | .obj r _, .obj r' _ => r == r'
  | .fn r, .fn r' => r == r'
  | _, _ => false

/-- `Object.is`.  On the modelled domain (no NaN, no -0) it coincides with
strict equality. -/
def objectIs : JsVal → JsVal → Bool := strictEq

/-- `a == null` in JavaScript: true exactly for `null` and `undefined`. -/
def isNullish : JsVal → Bool
  | .undefined => true
  | .null => true
  | _ => false

/-- `typeof a === "object"`: true for `null`, arrays and plain objects
(functions have `typeof "function"`). -/
def typeofIsObject : JsVal → Bool
  | .null => true
  | .arr _ _ => true
  | .obj _ _ => true
  | _ => false

/-- `Array.isArray`. -/
def isJsArray : JsVal → Bool
  | .arr _ _ => true
  | _ => false

/-- Association-list lookup (first match), modelling `map.get(k)` /
`obj[k]` on a key that may be absent. -/
def alGet {κ α : Type} [BEq κ] (k : κ) : List (κ × α) → Option α
  | [] => none
  | (k', v) :: r => if k' == k then some v else alGet k r

/-- `map.set(k, v)`: updates an existing key in place (preserving the map's
insertion order) or appends a new entry at the end, as a JavaScript `Map`
does. -/
def alSet {κ α : Type} [BEq κ] (k : κ) (v : α) : List (κ × α) → List (κ × α)
  | [] => [(k, v)]
  | (k', v') :: r => if k' == k then (k, v) :: r else (k', v') :: alSet k v r

/-- `map.delete(k)`. -/
def alErase {κ α : Type} [BEq κ] (k : κ) (l : List (κ × α)) : List (κ × α) :=
  l.filter (fun kv => !(kv.1 == k))

/-- `map.has(k)`. -/
def alHas {κ α : Type} [BEq κ] (k : κ) (l : List (κ × α)) : Bool :=
  (alGet k l).isSome

/-- `obj[k]`, yielding `undefined` when the key is absent. -/
def jsGetField (fields : List (String × JsVal)) (k : String) : JsVal :=
  (alGet k fields).getD .undefined

/-- `Object.keys(arr)` enumerates index keys `"0"`, `"1"`, …; this pairs each
array element with its index key, used when an array is compared as an object
(`deepEquals` has no array/object type guard, see below). -/
def enumFields (start : Nat) : List JsVal → List (String × JsVal)
  | [] => []
  | v :: r => (toString start, v) :: enumFields (start + 1) r

/-- Elementwise `Object.is` over two index-aligned arrays
(the array branch of `shallowEquals`, after the length check). -/
def shallowList : List JsVal → List JsVal → Bool
  | [], [] => true
  | x :: xs, y :: ys => objectIs x y && shallowList xs ys
  | _, _ => false

/-- `shallowEquals` from src/unnamed/part_005 lines 5-41: identity check,
nullish / non-object short-circuit, array branch (length + elementwise
`Object.is`), array-vs-non-array short-circuit, then one-level object
comparison by `Object.keys`. -/
def shallowEquals (a b : JsVal) : Bool :=
  -- 1. Object.is(a, b)
  if objectIs a b then true
  -- 2. null or not an object
  else if isNullish a || isNullish b || !typeofIsObject a || !typeofIsObject b then false
  else match a, b with
  -- 3. both arrays: length then elementwise Object.is
  | .arr _ xs, .arr _ ys => xs.length == ys.length && shallowList xs ys
  | _, _ =>
    -- 4. Array.isArray(a) !== Array.isArray(b)
    if isJsArray a != isJsArray b then false
    else match a, b with
    -- 5. object comparison: key counts, then Object.is per key of a
    | .obj _ fa, .obj _ fb =>
      fa.length == fb.length &&
        fa.all (fun kv => objectIs kv.2 (jsGetField fb kv.1))
    | _, _ => false

mutual
/-- `deepEquals` from src/unnamed/part_005 lines 47-83: identity check,
nullish / non-object short-circuit, array branch, then object comparison by
`Object.keys`.  NOTE: unlike `shallowEquals`, the source has NO
array-vs-non-array short-circuit, so an array and a plain object fall through
to the key-by-key comparison (`Object.keys` of an array being its index
keys). -/
def deepEquals (a b : JsVal) : Bool :=
  if objectIs a b then true
  else if isNullish a || isNullish b || !typeofIsObject a || !typeofIsObject b then false
  else match a, b with
  | .arr _ xs, .arr _ ys => xs.length == ys.length && deepList xs ys
  | .arr _ xs, .obj _ fb => xs.length == fb.length && deepIdx 0 xs fb
  | .obj _ fa, .arr _ ys => fa.length == ys.length && deepFields fa (enumFields 0 ys)
  | .obj _ fa, .obj _ fb => fa.length == fb.length && deepFields fa fb
  | _, _ => false
termination_by structural a

/-- Index-aligned recursive comparison of two arrays. -/
def deepList : List JsVal → List JsVal → Bool
  | [], [] => true
  | x :: xs, y :: ys => deepEquals x y && deepList xs ys
  | _, _ => false
termination_by structural xs ys => xs

/-- Array compared as an object: each element against the other side's
value at the corresponding index key. -/
def deepIdx (i : Nat) (xs : List JsVal) (fb : List (String × JsVal)) : Bool :=
  match xs with
  | [] => true
  | x :: r => deepEquals x (jsGetField fb (toString i)) && deepIdx (i + 1) r fb
termination_by structural xs

/-- Object keys of the left side compared recursively against the right
side's values (absent keys read as `undefined`). -/
def deepFields (fa fb : List (String × JsVal)) : Bool :=
  match fa with
  | [] => true
  | (k, v) :: r => deepEquals v (jsGetField fb k) && deepFields r fb
termination_by structural fa
end

/-! ## Virtual nodes

`VNode.type` in the source is a string tag, the `Fragment` symbol, the
`TEXT_ELEMENT` symbol, or a component function; it is modelled as the closed
union `NType`.  A component function is identified by its reference `id`
(JavaScript `===` on functions is reference equality) and carries its
`displayName` / `name` metadata used by `createChildPath`.

In the source, a node's children live in `props.children`; here they are
split into a dedicated `children` field (the `key === "children"` skips of
`setDomProps` / `updateDomProps` are kept, mirroring the source). -/

/-- A component function value: reference identity plus the name metadata
read by `createChildPath`.  `displayName` is `none` when the property is
absent; `fname` models `Function.prototype.name` (possibly `""`). -/
structure CompFun where
  id : Nat
  displayName : Option String
  fname : String
deriving DecidableEq

/-- The `type` field of a VNode: `Fragment` marker, `TEXT_ELEMENT` marker,
host tag string, or component function. -/
inductive NType : Type where
  | fragment : NType
  | text : NType
  | host (tag : String) : NType
  | comp (c : CompFun) : NType
deriving DecidableEq

/-- `===` on VNode `type` values: the two markers compare by identity,
strings by value, functions by reference. -/
def ntypeEq : NType → NType → Bool
  | .fragment, .fragment => true
  | .text, .text => true
  | .host a, .host b => a == b
  | .comp c, .comp c' => c.id == c'.id
  | _, _ => false

/-- A virtual node (children split out of `props`, see above). -/
inductive VNode : Type where
  | mk (type : NType) (key : Option String) (props : List (String × JsVal))
      (children : List VNode) : VNode

def VNode.type : VNode → NType
  | .mk t _ _ _ => t

def VNode.key : VNode → Option String
  | .mk _ k _ _ => k

def VNode.props : VNode → List (String × JsVal)
  | .mk _ _ p _ => p

def VNode.children : VNode → List VNode
  | .mk _ _ _ c => c

/-- `nodeType.displayName || nodeType.name || "Component"` (JavaScript `||`:
an absent or empty `displayName` falls through to `name`, an empty `name`
falls through to the fixed placeholder). -/
def jsDisplayName (c : CompFun) : String :=
  match c.displayName with
  | some s => if s = "" then (if c.fname = "" then "Component" else c.fname) else s
  | none => if c.fname = "" then "Component" else c.fname

/-- `createChildPath` from src/packages/react/src/core/elements.ts lines
73-96.  `nodeType` is `none` when the caller passes `undefined`
(`childNode?.type` on a null child).  `siblings` is always an array at the
call sites, so it is modelled as a plain list (the source's
`siblings?.slice(0, index).filter(...).length || 0` degenerates to the same
count). -/
def createChildPath (parentPath : String) (key : Option String) (index : Nat)
    (nodeType : Option NType) (siblings : List VNode) : String :=
  match key with
  | some k => parentPath ++ ".k" ++ k
  | none =>
    match nodeType with
    | some (.comp c) =>
      let componentName := jsDisplayName c
      let sameTypeCount :=
        ((siblings.take index).filter
          (fun s => ntypeEq s.type (.comp c) && s.key == (none : Option String))).length
      parentPath ++ ".c" ++ componentName ++ "_" ++ toString sameTypeCount
    | _ => parentPath ++ ".i" ++ toString index

example : shallowEquals (.arr 0 [.num 1]) (.obj 1 [("0", .num 1)]) = false := by decide
example : deepEquals (.arr 0 []) (.obj 1 []) = true := by decide
example : deepEquals (.arr 0 [.num 1]) (.obj 1 [("0", .num 1)]) = true := by decide
example : deepEquals (.num 3) (.str "3") = false := by decide
example : shallowEquals (.arr 0 [.num 1, .num 2]) (.arr 1 [.num 1, .num 2]) = true := by decide
example : createChildPath "p" (some "x") 3 none [] = "p.kx" := by decide
example : createChildPath "p" none 2 (some (.comp ⟨7, none, "Foo"⟩))
    [VNode.mk (.comp ⟨7, none, "Foo"⟩) none [] [], VNode.mk (.comp ⟨8, none, "Foo"⟩) none [] []]
    = "p.cFoo_1" := by decide
example : createChildPath "p" none 2 (some (.host "div")) [] = "p.i2" := by decide

/-! ## Hook store

The process-wide render context (`context.hooks`, `context.effects`).  The
`context.ts` module itself is not among the provided sources; its data layout
and the `currentPath` / `currentCursor` / `currentHooks` getters are modelled
from the spec (section 3 "Hook Store state" and section 4.2).  JavaScript
`Map`s are modelled as insertion-ordered association lists with unique keys;
the visited `Set` as an insertion-ordered duplicate-free list. -/

/-- One persisted hook slot: a plain value slot (`useState`) or an effect
slot.  Effect and cleanup procedures are modelled by opaque identifiers;
running one is recorded as an event in the trace.  The source distinguishes
effect slots by their `kind` field at runtime; here the distinction is the
constructor. -/
inductive Slot : Type where
  | value (v : JsVal) : Slot
  | effect (deps : Option (List JsVal)) (cleanup : Option Nat) (eff : Nat) : Slot

/-- An observable action: a platform-widget (DOM) mutation, or the
invocation of an effect / cleanup procedure. -/
inductive Ev : Type where
  | createElement (id : Nat) (tag : String) : Ev
  | createTextNode (id : Nat) (text : String) : Ev
  | appendChild (parent child : Nat) : Ev
  | insertBefore (parent child : Nat) (anchor : Option Nat) : Ev
  | removeChild (parent child : Nat) : Ev
  | setStyleProp (id : Nat) (k : String) (v : JsVal) : Ev
  | setClassName (id : Nat) (v : JsVal) : Ev
  | addListener (id : Nat) (event : String) (h : JsVal) : Ev
  | removeListener (id : Nat) (event : String) (h : JsVal) : Ev
  | setDomProperty (id : Nat) (k : String) (v : JsVal) : Ev
  | setAttr (id : Nat) (k : String) (v : JsVal) : Ev
  | removeAttr (id : Nat) (k : String) : Ev
  | setNodeValue (id : Nat) (text : String) : Ev
  | cleanupRun (cleanupId : Nat) : Ev
  | effectRun (effectId : Nat) : Ev

/-- The hook store plus effect queue (`context.hooks` and `context.effects`).
`renderRequested` records that `enqueueRender()` was called. -/
structure Ctx where
  hookState : List (String × List Slot)
  cursor : List (String × Nat)
  visited : List String
  componentStack : List String
  effectQueue : List (String × Nat)
  renderRequested : Bool

/-- Modelled from the spec: `hooks.currentPath` (context.ts is not among the
sources) — the top of the call stack of currently-executing component
paths. -/
def currentPath (ctx : Ctx) : String :=
  ctx.componentStack.getLast?.getD ""

/-- Modelled from the spec: `hooks.currentCursor` — the path's next slot
cursor (0 before the first hook of a pass). -/
def currentCursor (ctx : Ctx) (path : String) : Nat :=
  (alGet path ctx.cursor).getD 0

/-- Modelled from the spec: `hooks.currentHooks` — the path's ordered slot
sequence, created empty on first access (so that subsequent slot writes are
visible through the persisted table). -/
def ensureHooks (ctx : Ctx) (path : String) : Ctx :=
  if alHas path ctx.hookState then ctx
  else { ctx with hookState := alSet path [] ctx.hookState }

/-- `set.add(p)` on the visited set. -/
def visitedAdd (ctx : Ctx) (path : String) : Ctx :=
  if ctx.visited.contains path then ctx
  else { ctx with visited := ctx.visited ++ [path] }

/-- JavaScript array write `l[i] = s`, extending the array (holes read back
as `undefined`) when `i` is past the end. -/
def listSetPad {α : Type} (pad : α) : List α → Nat → α → List α
  | [], 0, s => [s]
  | [], n + 1, s => pad :: listSetPad pad [] n s
  | _ :: r, 0, s => s :: r
  | x :: r, n + 1, s => x :: listSetPad pad r n s

/-- Modelled from the spec: `enqueueRender` is `withEnqueue(render)` (the
microtask-batching helper is not among the sources); calling it any number of
times within a tick requests exactly one deferred render pass, recorded here
as a flag. -/
def enqueueRender (ctx : Ctx) : Ctx :=
  { ctx with renderRequested := true }

/-- Cleanup events produced while garbage-collecting one path: every effect
slot's cleanup procedure (when non-null) is invoked, in slot order
(src/unnamed/part_001 lines 26-36). -/
def cleanupEvsOf : Option (List Slot) → List Ev
  | none => []
  | some slots =>
    slots.filterMap (fun h =>
      match h with
      | .effect _ (some cl) _ => some (.cleanupRun cl)
      | _ => none)

/-- The body of `cleanupUnusedHooks`' per-path loop (src/unnamed/part_001
lines 23-40): run the path's effect cleanups, then delete its slot sequence
and its cursor entry. -/
def cleanupPathStep (acc : Ctx × List Ev) (path : String) : Ctx × List Ev :=
  let evs := cleanupEvsOf (alGet path acc.1.hookState)
  ({ acc.1 with
      hookState := alErase path acc.1.hookState,
      cursor := alErase path acc.1.cursor },
    acc.2 ++ evs)

/-- `cleanupUnusedHooks` from src/unnamed/part_001 lines 10-41: collect the
paths present in the slot table but not visited this pass; for each, run its
effect cleanups synchronously, then delete its slot sequence and cursor
entry. -/
def cleanupUnusedHooks (ctx : Ctx) : Ctx × List Ev :=
  let pathsToDelete :=
    (ctx.hookState.map Prod.fst).filter (fun p => !(ctx.visited.contains p))
  pathsToDelete.foldl cleanupPathStep (ctx, [])

/-- The raw JavaScript value read back from a slot position
(`currentHooks[cursor] as T`); a missing index reads as `undefined`.  A
non-value slot at a `useState` position is a hook-order contract violation
(spec section 7, item 3) and is read as `undefined` here. -/
def slotAsJs : Option Slot → JsVal
  | some (.value v) => v
  | _ => .undefined

/-- `currentHooks[cursor] === undefined`: the position is missing, or holds a
stored `undefined`. -/
def slotIsUndefined : Option Slot → Bool
  | none => true
  | some (.value .undefined) => true
  | _ => false

/-- The setter closure produced by `useState` (src/unnamed/part_001 lines
65-82), which captures `path` and `cursor`: compute the next value (applying
an updater to the currently stored value), skip entirely when `Object.is`
finds it unchanged, otherwise store it and request a re-render. -/
def setState (path : String) (cursor : Nat) (nextValue : JsVal ⊕ (JsVal → JsVal))
    (ctx : Ctx) : Ctx :=
  let currentState := slotAsJs ((alGet path ctx.hookState).bind (fun slots => slots[cursor]?))
  let newValue := match nextValue with
    | .inl v => v
    | .inr f => f currentState
  if objectIs currentState newValue then ctx
  else
    let ctx' := match alGet path ctx.hookState with
      | some stateArray =>
        let slots' := listSetPad (.value .undefined) stateArray cursor (.value newValue)
        { ctx with hookState := alSet path slots' ctx.hookState }
      | none => ctx
    enqueueRender ctx'

/-- `useState` from src/unnamed/part_001 lines 48-88: read the current slot
(initialising it on first render), return the stored value together with the
`(path, cursor)` pair captured by the setter closure, and advance the
cursor. -/
def useState (init : JsVal ⊕ (Unit → JsVal)) (ctx : Ctx) : (JsVal × String × Nat) × Ctx :=
  let path := currentPath ctx
  let ctx := ensureHooks ctx path
  let cursor := currentCursor ctx path
  let slots := (alGet path ctx.hookState).getD []
  let (slots, ctx) :=
    if slotIsUndefined slots[cursor]? then
      let initialState := match init with
        | .inl v => v
        | .inr f => f ()
      let slots := listSetPad (.value .undefined) slots cursor (.value initialState)
      (slots, { ctx with hookState := alSet path slots ctx.hookState })
    else (slots, ctx)
  let state := slotAsJs slots[cursor]?
  let ctx := { ctx with cursor := alSet path (cursor + 1) ctx.cursor }
  ((state, path, cursor), ctx)

/-- The stored-deps-versus-new-deps comparison `shallowEquals(prevHook.deps,
deps)` on an effect slot with `deps` present: stored `null` deps are never
shallow-equal to an array (the nullish guard), and two arrays compare by
length plus elementwise `Object.is` (the array branch; when the two arrays
are one and the same reference the elementwise result is likewise true). -/
def storedDepsEqual : Option (List JsVal) → List JsVal → Bool
  | none, _ => false
  | some pd, nd => pd.length == nd.length && shallowList pd nd

/-- `useEffect` from src/unnamed/part_001 lines 95-132.  `deps` is `none`
for an `undefined` dependency argument.  `depsChanged` is
`!prevHook || deps === undefined || !shallowEquals(prevHook.deps, deps)`;
when the previous slot is missing — or is not an effect slot, in which case
either it is falsy or its `deps` read as `undefined`, never shallow-equal to
anything here — that disjunction is true, so both collapse to `true`. -/
def useEffect (eff : Nat) (deps : Option (List JsVal)) (ctx : Ctx) : Ctx :=
  let path := currentPath ctx
  let ctx := ensureHooks ctx path
  let cursor := currentCursor ctx path
  let slots := (alGet path ctx.hookState).getD []
  let prevHook := slots[cursor]?
  let depsChanged := match prevHook with
    | some (.effect prevDeps _ _) =>
      match deps with
      | none => true
      | some nd => !storedDepsEqual prevDeps nd
    | _ => true
  let ctx :=
    if depsChanged then
      -- new effect slot carrying the previous cleanup (`prevHook?.cleanup ?? null`)
      let prevCleanup := match prevHook with
        | some (.effect _ cl _) => cl
        | _ => none
      let newHook : Slot := .effect deps prevCleanup eff
      { ctx with
          hookState := alSet path (listSetPad (.value .undefined) slots cursor newHook) ctx.hookState,
          effectQueue := ctx.effectQueue ++ [(path, cursor)] }
    else
      -- dependencies unchanged: keep the previous slot object in place
      { ctx with hookState := alSet path slots ctx.hookState }
  { ctx with cursor := alSet path (cursor + 1) ctx.cursor }

/-! ## Instances and the platform adapter

The live instance tree (reconciler state) and the DOM-facing helpers of
src/unnamed/part_000 (dom.ts).  Platform widgets are identified by numeric
ids allocated at creation; the store `St` records the id supply, each
widget's current parent (for the `parentNode === parentDom` guard of
`removeInstance`), the hook context, and the ordered trace of observable
actions. -/

/-- `NodeTypes` from constants.ts. -/
inductive NodeKind : Type where
  | host : NodeKind
  | text : NodeKind
  | fragment : NodeKind
  | component : NodeKind
deriving DecidableEq

/-- A live instance mirroring one VNode (types.ts `Instance`).  `children`
entries may be null (index-aligned unmounts leave `null` holes). -/
inductive Instance : Type where
  | mk (kind : NodeKind) (dom : Option Nat) (node : VNode)
      (children : List (Option Instance)) (key : Option String) (path : String) : Instance

def Instance.kind : Instance → NodeKind
  | .mk k _ _ _ _ _ => k

def Instance.dom : Instance → Option Nat
  | .mk _ d _ _ _ _ => d

def Instance.node : Instance → VNode
  | .mk _ _ n _ _ _ => n

def Instance.children : Instance → List (Option Instance)
  | .mk _ _ _ c _ _ => c

def Instance.key : Instance → Option String
  | .mk _ _ _ _ k _ => k

def Instance.path : Instance → String
  | .mk _ _ _ _ _ p => p

/-- The mutable world threaded through a pass: widget id supply, widget
parent pointers, the hook context, and the trace of observable actions. -/
structure St where
  nextId : Nat
  parentOf : List (Nat × Nat)
  ctx : Ctx
  trace : List Ev

/-- Record one observable action. -/
def emit (e : Ev) (st : St) : St :=
  { st with trace := st.trace ++ [e] }

/-- JavaScript truthiness on the modelled domain. -/
def jsTruthy : JsVal → Bool
  | .undefined => false
  | .null => false
  | .bool b => b
  | .num n => !(n == 0)
  | .str s => !(s == "")
  | _ => true

/-- `Object.entries` (used on `style` prop objects).  `Object.entries(null)`
would throw in JavaScript; it is modelled as the empty list (no claim under
study reaches it). -/
def objectEntries : JsVal → List (String × JsVal)
  | .obj _ fs => fs
  | .arr _ xs => enumFields 0 xs
  | _ => []

/-- `key.toLowerCase().substring(2)` — the listener event name of an `on*`
prop. -/
def eventTypeOf (k : String) : String :=
  (k.toLower).drop 2

/-- One prop application of `setDomProps` (src/unnamed/part_000 lines
10-36): children skipped; style objects applied entry by entry; className;
`on*` listener binding; direct widget property when the key is a property of
the widget (`key in dom`, modelled by the environment predicate `ind`);
generic attribute otherwise. -/
def setOneProp (ind : String → Bool) (dom : Nat) (k : String) (v : JsVal) (st : St) : St :=
  if k == "children" then st
  else if k == "style" && typeofIsObject v then
    (objectEntries v).foldl (fun st e => emit (.setStyleProp dom e.1 e.2) st) st
  else if k == "className" then emit (.setClassName dom v) st
  else if k.startsWith "on" then emit (.addListener dom (eventTypeOf k) v) st
  else if ind k then emit (.setDomProperty dom k v) st
  else emit (.setAttr dom k v) st

/-- `setDomProps` from src/unnamed/part_000 lines 10-36. -/
def setDomProps (ind : String → Bool) (dom : Nat) (props : List (String × JsVal)) (st : St) : St :=
  props.foldl (fun st kv => setOneProp ind dom kv.1 kv.2 st) st

/-- Removal phase of `updateDomProps` (lines 47-67): for each old prop key
absent from the new props — unbind listeners, blank className, drop the style
attribute, blank direct widget properties, or remove the attribute. -/
def removeOldProp (ind : String → Bool) (dom : Nat) (next : List (String × JsVal))
    (k : String) (v : JsVal) (st : St) : St :=
  if k == "children" then st
  else if alHas k next then st
  else if k.startsWith "on" then emit (.removeListener dom (eventTypeOf k) v) st
  else if k == "className" then emit (.setClassName dom (.str "")) st
  else if k == "style" then emit (.removeAttr dom "style") st
  else if ind k then emit (.setDomProperty dom k (.str "")) st
  else emit (.removeAttr dom k) st

/-- Add/update phase of `updateDomProps` (lines 69-98): skip props whose
value is `===` the old one; otherwise apply, unbinding a truthy old listener
before rebinding. -/
def updateOneProp (ind : String → Bool) (dom : Nat) (prev : List (String × JsVal))
    (k : String) (v : JsVal) (st : St) : St :=
  if k == "children" then st
  else
    let prevValue := alGet k prev
    if strictEq (prevValue.getD .undefined) v then st
    else if k == "style" && typeofIsObject v then
      (objectEntries v).foldl (fun st e => emit (.setStyleProp dom e.1 e.2) st) st
    else if k == "className" then emit (.setClassName dom v) st
    else if k.startsWith "on" then
      let st := match prevValue with
        | some pv => if jsTruthy pv then emit (.removeListener dom (eventTypeOf k) pv) st else st
        | none => st
      emit (.addListener dom (eventTypeOf k) v) st
    else if ind k then emit (.setDomProperty dom k v) st
    else emit (.setAttr dom k v) st

/-- `updateDomProps` from src/unnamed/part_000 lines 42-99: remove old props
absent in the new props, then add/update changed props (unchanged props are
left untouched). -/
def updateDomProps (ind : String → Bool) (dom : Nat)
    (prev next : List (String × JsVal)) (st : St) : St :=
  let st := prev.foldl (fun st kv => removeOldProp ind dom next kv.1 kv.2 st) st
  next.foldl (fun st kv => updateOneProp ind dom prev kv.1 kv.2 st) st

mutual
/-- `getDomNodes` on a non-null instance (src/unnamed/part_000 lines
105-119): its own widget if it has one, else the widgets of its children. -/
def getDomNodesI (i : Instance) : List Nat :=
  match i with
  | .mk _ (some d) _ _ _ _ => [d]
  | .mk _ none _ children _ _ => getDomNodesList children
termination_by structural i

def getDomNodesList : List (Option Instance) → List Nat
  | [] => []
  | none :: r => getDomNodesList r
  | some c :: r => getDomNodesI c ++ getDomNodesList r
termination_by structural l => l
end

/-- `getDomNodes`, including the null-instance case. -/
def getDomNodes : Option Instance → List Nat
  | none => []
  | some i => getDomNodesI i

/-- `removeInstance` from src/unnamed/part_000 lines 177-187: detach every
widget under the instance that is still a child of `parentDom` (idempotent
thanks to the `parentNode === parentDom` guard). -/
def removeInstance (parentDom : Nat) (inst? : Option Instance) (st : St) : St :=
  match inst? with
  | none => st
  | some inst =>
    (getDomNodesI inst).foldl
      (fun st node =>
        if alGet node st.parentOf == some parentDom then
          { st with parentOf := alErase node st.parentOf,
                    trace := st.trace ++ [.removeChild parentDom node] }
        else st)
      st

/-- `document.createElement`: allocate a fresh widget id. -/
def createElementD (tag : String) (st : St) : Nat × St :=
  (st.nextId,
    { st with nextId := st.nextId + 1, trace := st.trace ++ [.createElement st.nextId tag] })

/-- `document.createTextNode`. -/
def createTextNodeD (text : String) (st : St) : Nat × St :=
  (st.nextId,
    { st with nextId := st.nextId + 1, trace := st.trace ++ [.createTextNode st.nextId text] })

/-- `parentDom.appendChild(child)`: reparent the widget and record the
mutation. -/
def appendChildD (parent child : Nat) (st : St) : St :=
  { st with parentOf := alSet child parent st.parentOf,
            trace := st.trace ++ [.appendChild parent child] }

/-- `props.nodeValue || ""`.  The node constructor produces `nodeValue` by
`String(node)`, so the value is always a string; a falsy or absent value
yields the empty string. -/
def nodeValueOf (props : List (String × JsVal)) : String :=
  match alGet "nodeValue" props with
  | some (.str s) => s
  | _ => ""

/-- The environment of a pass: the component function table (a component's
body maps its `props` — split here into the prop map and the children list —
and the current hook context to a child VNode or null and an updated
context), and the platform's `key in dom` predicate. -/
structure REnv where
  comps : Nat → List (String × JsVal) → List VNode → Ctx → Option VNode × Ctx
  isDomProp : String → Bool

mutual
/-- `reconcile` from src/packages/react/src/core/reconciler.ts lines 24-48:
unmount on a null node, mount on a null instance, replace when the type or
key differs, update otherwise.  `fuel` bounds the recursion depth (component
bodies can return arbitrarily large trees); `none` means fuel ran out. -/
def reconcile (env : REnv) (fuel : Nat) (parentDom : Nat) (inst? : Option Instance)
    (node : Option VNode) (path : String) (st : St) : Option (Option Instance × St) :=
  match fuel with
  | 0 => none
  | f + 1 =>
    match node with
    | none =>
      some (none,
        match inst? with
        | some _ => removeInstance parentDom inst? st
        | none => st)
    | some n =>
      match inst? with
      | none => (mount env f parentDom n path st).map (fun r => (some r.1, r.2))
      | some inst =>
        if !(ntypeEq inst.node.type n.type) || !(inst.node.key == n.key) then
          let st := removeInstance parentDom (some inst) st
          (mount env f parentDom n path st).map (fun r => (some r.1, r.2))
        else
          (update env f parentDom inst n path st).map (fun r => (some r.1, r.2))
termination_by (fuel, 0, 0)

/-- `mount` from reconciler.ts lines 52-138. -/
def mount (env : REnv) (fuel : Nat) (parentDom : Nat) (node : VNode) (path : String)
    (st : St) : Option (Instance × St) :=
  match node.type with
  | .fragment =>
    let inst0 := Instance.mk .fragment none node [] node.key path
    (reconcileChildren env fuel parentDom inst0 node.children st).map (fun r =>
      (Instance.mk .fragment none node r.1 node.key path, r.2))
  | .comp c =>
    -- visit protocol: push the path, reset its cursor, mark it visited
    let ctx := st.ctx
    let ctx := { ctx with componentStack := ctx.componentStack ++ [path] }
    let ctx := { ctx with cursor := alSet path 0 ctx.cursor }
    let ctx := visitedAdd ctx path
    -- run the component function
    let (childNode, ctx) := env.comps c.id node.props node.children ctx
    -- pop the path
    let ctx := { ctx with componentStack := ctx.componentStack.dropLast }
    let st := { st with ctx := ctx }
    let childPath := createChildPath path none 0 (childNode.map VNode.type)
      (match childNode with | some cn => [cn] | none => [])
    (reconcile env fuel parentDom none childNode childPath st).map (fun r =>
      (Instance.mk .component none node
        (match r.1 with | some ci => [some ci] | none => []) node.key path, r.2))
  | .text =>
    let (textNode, st) := createTextNodeD (nodeValueOf node.props) st
    let st := appendChildD parentDom textNode st
    some (Instance.mk .text (some textNode) node [] node.key path, st)
  | .host tag =>
    let (dom, st) := createElementD tag st
    let st := setDomProps env.isDomProp dom node.props st
    let inst0 := Instance.mk .host (some dom) node [] node.key path
    (reconcileChildren env fuel dom inst0 node.children st).map (fun r =>
      let st := appendChildD parentDom dom r.2
      (Instance.mk .host (some dom) node r.1 node.key path, st))
termination_by (fuel, 3, 0)

/-- `update` from reconciler.ts lines 143-197.  `prevProps` is captured
before `instance.node` is overwritten. -/
def update (env : REnv) (fuel : Nat) (parentDom : Nat) (inst : Instance) (node : VNode)
    (path : String) (st : St) : Option (Instance × St) :=
  let prevProps := inst.node.props
  -- instance.node = node; instance.path = path
  let inst1 := Instance.mk inst.kind inst.dom node inst.children inst.key path
  match node.type with
  | .fragment =>
    (reconcileChildren env fuel parentDom inst1 node.children st).map (fun r =>
      (Instance.mk inst1.kind inst1.dom node r.1 inst1.key path, r.2))
  | .comp c =>
    let ctx := st.ctx
    let ctx := { ctx with componentStack := ctx.componentStack ++ [path] }
    let ctx := { ctx with cursor := alSet path 0 ctx.cursor }
    let ctx := visitedAdd ctx path
    let (childNode, ctx) := env.comps c.id node.props node.children ctx
    let ctx := { ctx with componentStack := ctx.componentStack.dropLast }
    let st := { st with ctx := ctx }
    -- instance.children[0] || null
    let oldChild : Option Instance := (inst1.children[0]?).getD none
    let childPath := createChildPath path none 0 (childNode.map VNode.type)
      (match childNode with | some cn => [cn] | none => [])
    (reconcile env fuel parentDom oldChild childNode childPath st).map (fun r =>
      (Instance.mk inst1.kind inst1.dom node
        (match r.1 with | some ci => [some ci] | none => []) inst1.key path, r.2))
  | .text =>
    match inst1.dom with
    | some d =>
      -- instance.dom.nodeValue = props.nodeValue || "" (an unconditional write)
      some (inst1, emit (.setNodeValue d (nodeValueOf node.props)) st)
    | none =>
      -- no dom: the subsequent HOST guard also fails; returned unchanged
      some (inst1, st)
  | .host _ =>
    match inst1.kind, inst1.dom with
    | .host, some d =>
      let st := updateDomProps env.isDomProp d prevProps node.props st
      (reconcileChildren env fuel d inst1 node.children st).map (fun r =>
        (Instance.mk .host (some d) node r.1 inst1.key path, r.2))
    | _, _ => some (inst1, st)
termination_by (fuel, 3, 0)

/-- `reconcileChildren` from reconciler.ts lines 202-225: strictly
index-paired walk up to `max(oldCount, newCount)`. -/
def reconcileChildren (env : REnv) (fuel : Nat) (parentDom : Nat) (parentInstance : Instance)
    (newChildren : List VNode) (st : St) : Option (List (Option Instance) × St) :=
  let oldChildren := parentInstance.children
  let maxLength := max oldChildren.length newChildren.length
  reconcileLoop env fuel parentDom parentInstance.path oldChildren newChildren 0 maxLength st
termination_by (fuel, 2, 0)

/-- The body of `reconcileChildren`'s `for` loop, iterating `remaining` more
indices starting at `i`: pair old and new child by index, compute the child
path (from the new child when present, else the old child's path with a
positional fallback), reconcile, collect. -/
def reconcileLoop (env : REnv) (fuel : Nat) (parentDom : Nat) (parentPath : String)
    (oldChildren : List (Option Instance)) (newChildren : List VNode)
    (i remaining : Nat) (st : St) : Option (List (Option Instance) × St) :=
  match remaining with
  | 0 => some ([], st)
  | rem + 1 =>
    let oldChild : Option Instance := (oldChildren[i]?).getD none
    let newChild : Option VNode := newChildren[i]?
    let childPath := match newChild with
      | some nc => createChildPath parentPath nc.key i (some nc.type) newChildren
      | none =>
        match oldChild with
        | some oc => if oc.path == "" then parentPath ++ ".i" ++ toString i else oc.path
        | none => parentPath ++ ".i" ++ toString i
    match reconcile env fuel parentDom oldChild newChild childPath st with
    | none => none
    | some (childInst, st) =>
      match reconcileLoop env fuel parentDom parentPath oldChildren newChildren (i + 1) rem st with
      | none => none
      | some (rest, st) => some (childInst :: rest, st)
termination_by (fuel, 1, remaining)
end

/-! ## Render scheduler

`render` from src/packages/react/src/core/render.ts lines 11-46: reset the
per-pass hook bookkeeping (cursors, visited set, component stack — NOT the
persisted slot table), reconcile the root, garbage-collect unused hooks, then
snapshot the effect queue (clearing the live queue) and hand the snapshot to
the deferred flush.  The deferred microtask itself is modelled by returning
the snapshot; `flushEffects` is its body. -/

/-- The root record (`context.root`): container widget, current root VNode,
and the instance of the previous pass. -/
structure Root where
  container : Nat
  node : Option VNode
  inst : Option Instance

/-- The per-pass reset at the top of `render` (lines 15-17):
`cursor.clear()`, `visited.clear()`, `componentStack = []`.  The persisted
slot table is untouched. -/
def resetPass (ctx : Ctx) : Ctx :=
  { ctx with cursor := [], visited := [], componentStack := [] }

/-- Steps 2-4 of `render` after the reset: reconcile the root, run
`cleanupUnusedHooks` (its cleanup invocations appended to the trace), then
snapshot and clear the effect queue.  Returns the new root instance, the
snapshot handed to the deferred flush, and the final store. -/
def renderBody (env : REnv) (fuel : Nat) (root : Root) (st : St) :
    Option (Option Instance × List (String × Nat) × St) :=
  match reconcile env fuel root.container root.inst root.node "" st with
  | none => none
  | some (inst', st) =>
    let (ctx, evs) := cleanupUnusedHooks st.ctx
    let st := { st with ctx := ctx, trace := st.trace ++ evs }
    let effectsToRun := st.ctx.effectQueue
    let st := { st with ctx := { st.ctx with effectQueue := [] } }
    some (inst', effectsToRun, st)

/-- `render` from render.ts lines 11-46. -/
def render (env : REnv) (fuel : Nat) (root : Root) (st : St) :
    Option (Option Instance × List (String × Nat) × St) :=
  renderBody env fuel root { st with ctx := resetPass st.ctx }

/-- One queued entry of the deferred effect flush (render.ts lines 29-43):
look up the slot; if it is still a live effect slot, run its stored cleanup
(when present), run its effect, and store the returned cleanup
(`effectReturns` gives each effect procedure's returned cleanup, or none);
otherwise skip silently. -/
def flushOne (effectReturns : Nat → Option Nat) (ctx : Ctx) (evs : List Ev)
    (path : String) (cursor : Nat) : Ctx × List Ev :=
  match alGet path ctx.hookState with
  | none => (ctx, evs)
  | some hookState =>
    match hookState[cursor]? with
    | some (.effect deps cleanup eff) =>
      let evs := evs ++ (match cleanup with
        | some cl => [Ev.cleanupRun cl]
        | none => [])
      let evs := evs ++ [Ev.effectRun eff]
      let hookState := listSetPad (.value .undefined) hookState cursor
        (.effect deps (effectReturns eff) eff)
      ({ ctx with hookState := alSet path hookState ctx.hookState }, evs)
    | _ => (ctx, evs)

/-- The deferred effect flush: process the snapshot in order. -/
def flushEffects (effectReturns : Nat → Option Nat) (entries : List (String × Nat))
    (ctx : Ctx) : Ctx × List Ev :=
  entries.foldl (fun acc e => flushOne effectReturns acc.1 acc.2 e.1 e.2) (ctx, [])

/-! ## Claims about the equality utilities (C9) -/

/-- C9 counterexample: the claim asserts that a type mismatch — including one
input being an array and the other a non-array object — yields "not equal"
for both comparators; but `deepEquals` has no array/object short-circuit, and
an empty array compares deep-equal to an empty plain object. -/
theorem deepEquals_array_object_counterexample :
    deepEquals (.arr 0 []) (.obj 1 []) = true ∧
    isJsArray (.arr 0 []) ≠ isJsArray (.obj 1 []) := by
  constructor
  · decide
  · decide

/-- C9 (amended): both comparators are total functions of their inputs; for
non-identical inputs where either side is nullish or not of object type, both
return false via the identity-check-then-type-guard short-circuit; an
array/non-array-object mismatch yields "not equal" for `shallowEquals`
(while `deepEquals` falls through to the key-by-key object comparison in
that case). -/
theorem equality_shortCircuits (a b : JsVal) (hne : objectIs a b = false) :
    ((isNullish a || isNullish b || !typeofIsObject a || !typeofIsObject b) = true →
      shallowEquals a b = false ∧ deepEquals a b = false) ∧
    (typeofIsObject a = true → typeofIsObject b = true →
      isNullish a = false → isNullish b = false →
      isJsArray a ≠ isJsArray b → shallowEquals a b = false) := by
  constructor
  · intro hguard
    constructor
    · unfold shallowEquals
      rw [hne, hguard]
      simp
    · unfold deepEquals
      rw [hne, hguard]
      simp
  · intro hta htb hna hnb hmis
    unfold shallowEquals
    rw [hne]
    have hguard : (isNullish a || isNullish b || !typeofIsObject a || !typeofIsObject b) = false := by
      rw [hta, htb, hna, hnb]; rfl
    rw [hguard]
    simp only [Bool.false_eq_true, if_false]
    cases a <;> cases b <;> simp_all [typeofIsObject, isNullish, isJsArray]

/-- Witness for C9's amended theorem at concrete inputs: `3 ≠ "3"` short-
circuits to false for both comparators, and an array never shallow-equals a
plain object. -/
theorem equality_shortCircuits_witness :
    shallowEquals (.num 3) (.str "3") = false ∧ deepEquals (.num 3) (.str "3") = false ∧
    shallowEquals (.arr 4 [.num 1]) (.obj 5 [("0", .num 1)]) = false := by
  have h1 := (equality_shortCircuits (.num 3) (.str "3") (by decide)).1 (by decide)
  have h2 := (equality_shortCircuits (.arr 4 [.num 1]) (.obj 5 [("0", .num 1)]) (by decide)).2
    (by decide) (by decide) (by decide) (by decide) (by decide)
  exact ⟨h1.1, h1.2, h2⟩

/-! ## Claim about the path identity assigner (C3) -/

/-- C3: `createChildPath` with an explicit key yields `parent + ".k" + key`;
with a component-function type it yields `parent + ".c" + name + "_" + N`
where `name` is the declared display name (placeholder fallback) and `N`
counts the strictly-earlier siblings of the very same type without an
explicit key; otherwise it yields the positional `parent + ".i" + index`. -/
theorem createChildPath_cases (p : String) (k : Option String) (i : Nat)
    (t : Option NType) (s : List VNode) :
    (∀ kk, k = some kk → createChildPath p k i t s = p ++ ".k" ++ kk) ∧
    (∀ c, k = none → t = some (.comp c) →
      createChildPath p k i t s =
        p ++ ".c" ++ jsDisplayName c ++ "_" ++
          toString ((s.take i).countP
            (fun v => ntypeEq v.type (.comp c) && v.key == (none : Option String)))) ∧
    (k = none → (∀ c, t ≠ some (.comp c)) →
      createChildPath p k i t s = p ++ ".i" ++ toString i) := by
  refine ⟨?_, ?_, ?_⟩
  · intro kk hk
    subst hk
    rfl
  · intro c hk ht
    subst hk; subst ht
    show p ++ ".c" ++ jsDisplayName c ++ "_" ++ toString (List.length _) = _
    rw [List.countP_eq_length_filter]
  · intro hk ht
    subst hk
    match t with
    | none => rfl
    | some .fragment => rfl
    | some .text => rfl
    | some (.host tag) => rfl
    | some (.comp c) => exact absurd rfl (ht c)

/-- Witness for C3 at concrete inputs covering all three cases. -/
theorem createChildPath_cases_witness :
    createChildPath "r" (some "x") 9 none [] = "r.kx" ∧
    createChildPath "r" none 2 (some (.comp ⟨7, none, "Foo"⟩))
      [VNode.mk (.comp ⟨7, none, "Foo"⟩) none [] [],
       VNode.mk (.comp ⟨7, none, "Foo"⟩) (some "k") [] [],
       VNode.mk (.comp ⟨7, none, "Foo"⟩) none [] []] = "r.cFoo_1" ∧
    createChildPath "r" none 4 (some (.host "div")) [] = "r.i4" := by
  refine ⟨?_, ?_, ?_⟩
  · exact (createChildPath_cases "r" (some "x") 9 none []).1 "x" rfl
  · have h := (createChildPath_cases "r" none 2 (some (.comp ⟨7, none, "Foo"⟩))
      [VNode.mk (.comp ⟨7, none, "Foo"⟩) none [] [],
       VNode.mk (.comp ⟨7, none, "Foo"⟩) (some "k") [] [],
       VNode.mk (.comp ⟨7, none, "Foo"⟩) none [] []]).2.1 ⟨7, none, "Foo"⟩ rfl rfl
    rw [h]
    decide
  · exact (createChildPath_cases "r" none 4 (some (.host "div")) []).2.2 rfl
      (by intro c h; cases h)

/-! ## Association-list lemmas -/

theorem alGet_alSet_self {κ α : Type} [BEq κ] [LawfulBEq κ] (k : κ) (v : α)
    (l : List (κ × α)) : alGet k (alSet k v l) = some v := by
  induction l with
  | nil => simp [alGet, alSet]
  | cons kv r ih =>
    by_cases h : kv.1 == k
    · simp [alSet, h, alGet]
    · simp [alSet, alGet, h, ih]

theorem alGet_alSet_ne {κ α : Type} [BEq κ] [LawfulBEq κ] (k k' : κ) (v : α)
    (l : List (κ × α)) (h : (k' == k) = false) :
    alGet k' (alSet k v l) = alGet k' l := by
  induction l with
  | nil =>
    simp [alGet, alSet]
    intro he
    rw [he] at h
    simp at h
  | cons kv r ih =>
    by_cases hk : kv.1 == k
    · have hk2 : (k == k') = false := by
        rw [BEq.comm] at h
        exact h
      have hkk : (kv.1 == k') = false := by
        rw [eq_of_beq hk]
        exact hk2
      simp [alSet, hk, alGet, hkk, hk2]
    · simp only [alSet, hk, Bool.false_eq_true, if_false, alGet]
      by_cases hkv : kv.1 == k'
      · simp [hkv]
      · simp [hkv, ih]

theorem alGet_alErase_self {κ α : Type} [BEq κ] [LawfulBEq κ] (k : κ)
    (l : List (κ × α)) : alGet k (alErase k l) = none := by
  induction l with
  | nil => rfl
  | cons kv r ih =>
    by_cases h : kv.1 == k
    · simpa [alErase, h] using ih
    · simpa [alErase, alGet, h] using ih

theorem alGet_alErase_ne {κ α : Type} [BEq κ] [LawfulBEq κ] (k k' : κ)
    (l : List (κ × α)) (h : (k' == k) = false) :
    alGet k' (alErase k l) = alGet k' l := by
  induction l with
  | nil => rfl
  | cons kv r ih =>
    unfold alErase at ih ⊢
    rw [List.filter_cons]
    by_cases hk : kv.1 == k
    · have hkk : (kv.1 == k') = false := by
        rw [eq_of_beq hk]
        rw [BEq.comm] at h
        exact h
      simp [hk, alGet, hkk, ih]
    · by_cases hkv : kv.1 == k'
      · simp [hk, alGet, hkv]
      · simp [hk, alGet, hkv, ih]

theorem mem_keys_of_alGet_isSome {κ α : Type} [BEq κ] [LawfulBEq κ] (k : κ)
    (l : List (κ × α)) (h : (alGet k l).isSome = true) : k ∈ l.map Prod.fst := by
  induction l with
  | nil => simp [alGet] at h
  | cons kv r ih =>
    by_cases hk : kv.1 == k
    · simp [eq_of_beq hk]
    · simp only [alGet, hk, Bool.false_eq_true, if_false] at h
      simp [ih h]

theorem listSetPad_get_self {α : Type} (pad : α) (l : List α) (i : Nat) (s : α) :
    (listSetPad pad l i s)[i]? = some s := by
  induction l generalizing i with
  | nil =>
    induction i with
    | zero => rfl
    | succ n ih => simpa [listSetPad] using ih
  | cons x r ih =>
    match i with
    | 0 => simp [listSetPad]
    | n + 1 => simpa [listSetPad] using ih n

/-! ## Claim about useState's setter (C10) -/

/-- C10: the setter produced by `useState` compares the next value (or the
updater's result) to the currently stored value with `Object.is`; when equal
it leaves the context entirely unchanged (no slot write, no render request);
when different it writes the new value into the slot and requests a
re-render. -/
theorem setState_objectIs_gating (path : String) (cursor : Nat)
    (next : JsVal ⊕ (JsVal → JsVal)) (ctx : Ctx) (slots : List Slot) (cur nv : JsVal)
    (hslots : alGet path ctx.hookState = some slots)
    (hslot : slots[cursor]? = some (.value cur))
    (hnv : nv = (match next with | .inl v => v | .inr f => f cur)) :
    (objectIs cur nv = true → setState path cursor next ctx = ctx) ∧
    (objectIs cur nv = false →
      (∃ slots', alGet path (setState path cursor next ctx).hookState = some slots' ∧
        slots'[cursor]? = some (.value nv)) ∧
      (setState path cursor next ctx).renderRequested = true) := by
  have hread : slotAsJs ((alGet path ctx.hookState).bind (fun s => s[cursor]?)) = cur := by
    rw [hslots]
    simp [hslot, slotAsJs]
  constructor
  · intro heq
    unfold setState
    rw [hread]
    simp only [← hnv, heq, if_pos]
  · intro hne
    unfold setState
    rw [hread]
    simp only [← hnv, hne, Bool.false_eq_true, if_false, hslots]
    constructor
    · refine ⟨listSetPad (.value .undefined) slots cursor (.value nv), ?_, ?_⟩
      · simp [enqueueRender, alGet_alSet_self]
      · exact listSetPad_get_self _ _ _ _
    · rfl

/-- Witness for C10: a slot holding `1`; setting `1` again is a no-op, while
an updater producing `2` writes the slot and requests a render. -/
theorem setState_objectIs_gating_witness :
    (setState "p" 0 (.inl (.num 1))
        ⟨[("p", [.value (.num 1)])], [], [], [], [], false⟩ =
      ⟨[("p", [.value (.num 1)])], [], [], [], [], false⟩) ∧
    ((∃ slots', alGet "p" (setState "p" 0 (.inr (fun v =>
        match v with | .num n => .num (n + 1) | _ => .num 0))
        ⟨[("p", [.value (.num 1)])], [], [], [], [], false⟩).hookState = some slots' ∧
        slots'[0]? = some (.value (.num 2))) ∧
      (setState "p" 0 (.inr (fun v =>
        match v with | .num n => .num (n + 1) | _ => .num 0))
        ⟨[("p", [.value (.num 1)])], [], [], [], [], false⟩).renderRequested = true) := by
  constructor
  · exact (setState_objectIs_gating "p" 0 (.inl (.num 1))
      ⟨[("p", [.value (.num 1)])], [], [], [], [], false⟩ [.value (.num 1)]
      (.num 1) (.num 1) rfl rfl rfl).1 (by decide)
  · exact (setState_objectIs_gating "p" 0 (.inr (fun v =>
      match v with | .num n => .num (n + 1) | _ => .num 0))
      ⟨[("p", [.value (.num 1)])], [], [], [], [], false⟩ [.value (.num 1)]
      (.num 1) (.num 2) rfl rfl rfl).2 (by decide)

/-! ## Claim about useEffect dependency gating (C5) -/

/-- C5: at a `useEffect` slot — on the first render (no previous slot), with
an `undefined` deps argument, or with deps not shallow-equal to the stored
ones — the slot is replaced by a new effect slot carrying the previous
cleanup, and `(path, cursor)` is enqueued on the effect queue; with
shallow-equal deps the previous slot sequence is kept unchanged in place and
nothing is enqueued. -/
theorem useEffect_dependency_gating (eff : Nat) (deps : Option (List JsVal))
    (ctx : Ctx) (path : String) (cursor : Nat) (slots : List Slot)
    (hpath : currentPath ctx = path)
    (hslots : alGet path ctx.hookState = some slots)
    (hcursor : currentCursor ctx path = cursor) :
    (slots[cursor]? = none →
      alGet path (useEffect eff deps ctx).hookState =
        some (listSetPad (.value .undefined) slots cursor (.effect deps none eff)) ∧
      (useEffect eff deps ctx).effectQueue = ctx.effectQueue ++ [(path, cursor)]) ∧
    (∀ d cl e, slots[cursor]? = some (.effect d cl e) →
      (deps = none ∨ ∃ nd, deps = some nd ∧ storedDepsEqual d nd = false) →
      alGet path (useEffect eff deps ctx).hookState =
        some (listSetPad (.value .undefined) slots cursor (.effect deps cl eff)) ∧
      (useEffect eff deps ctx).effectQueue = ctx.effectQueue ++ [(path, cursor)]) ∧
    (∀ d cl e nd, slots[cursor]? = some (.effect d cl e) → deps = some nd →
      storedDepsEqual d nd = true →
      alGet path (useEffect eff deps ctx).hookState = some slots ∧
      (useEffect eff deps ctx).effectQueue = ctx.effectQueue) := by
  have hens : ensureHooks ctx path = ctx := by
    unfold ensureHooks
    simp [alHas, hslots]
  have hbody : useEffect eff deps ctx =
      (let prevHook := slots[cursor]?
       let depsChanged := match prevHook with
         | some (.effect prevDeps _ _) =>
           match deps with
           | none => true
           | some nd => !storedDepsEqual prevDeps nd
         | _ => true
       let ctx' :=
         if depsChanged then
           let prevCleanup := match prevHook with
             | some (.effect _ cl _) => cl
             | _ => none
           { ctx with
               hookState := alSet path
                 (listSetPad (.value .undefined) slots cursor (.effect deps prevCleanup eff)) ctx.hookState,
               effectQueue := ctx.effectQueue ++ [(path, cursor)] }
         else
           { ctx with hookState := alSet path slots ctx.hookState }
       { ctx' with cursor := alSet path (cursor + 1) ctx'.cursor }) := by
    unfold useEffect
    rw [hpath]
    simp only [hens, hcursor, hslots, Option.getD]
  refine ⟨?_, ?_, ?_⟩
  · intro h0
    rw [hbody]
    simp only [h0]
    exact ⟨alGet_alSet_self _ _ _, rfl⟩
  · intro d cl e hslot hch
    rw [hbody]
    rcases hch with h | ⟨nd, hnd, hf⟩
    · subst h
      simp only [hslot]
      exact ⟨alGet_alSet_self _ _ _, rfl⟩
    · subst hnd
      simp only [hslot, hf, Bool.not_false]
      exact ⟨alGet_alSet_self _ _ _, rfl⟩
  · intro d cl e nd hslot hnd heq
    subst hnd
    rw [hbody]
    simp only [hslot, heq, Bool.not_true]
    exact ⟨alGet_alSet_self _ _ _, rfl⟩

/-- Witness for C5: a first-render effect is stored and enqueued; re-running
with the same deps keeps the slot and enqueues nothing; changed deps replace
the slot (carrying the old cleanup) and enqueue. -/
theorem useEffect_dependency_gating_witness :
    (alGet "p" (useEffect 5 (some [.num 1])
        ⟨[("p", [])], [("p", 0)], [], ["p"], [], false⟩).hookState =
      some [.effect (some [.num 1]) none 5] ∧
     (useEffect 5 (some [.num 1])
        ⟨[("p", [])], [("p", 0)], [], ["p"], [], false⟩).effectQueue = [("p", 0)]) ∧
    (alGet "p" (useEffect 6 (some [.num 1])
        ⟨[("p", [.effect (some [.num 1]) (some 9) 5])], [("p", 0)], [], ["p"], [], false⟩).hookState =
      some [.effect (some [.num 1]) (some 9) 5] ∧
     (useEffect 6 (some [.num 1])
        ⟨[("p", [.effect (some [.num 1]) (some 9) 5])], [("p", 0)], [], ["p"], [], false⟩).effectQueue = []) ∧
    (alGet "p" (useEffect 6 (some [.num 2])
        ⟨[("p", [.effect (some [.num 1]) (some 9) 5])], [("p", 0)], [], ["p"], [], false⟩).hookState =
      some [.effect (some [.num 2]) (some 9) 6] ∧
     (useEffect 6 (some [.num 2])
        ⟨[("p", [.effect (some [.num 1]) (some 9) 5])], [("p", 0)], [], ["p"], [], false⟩).effectQueue = [("p", 0)]) := by
  refine ⟨?_, ?_, ?_⟩
  · exact (useEffect_dependency_gating 5 (some [.num 1])
      ⟨[("p", [])], [("p", 0)], [], ["p"], [], false⟩ "p" 0 [] rfl rfl rfl).1 rfl
  · exact (useEffect_dependency_gating 6 (some [.num 1])
      ⟨[("p", [.effect (some [.num 1]) (some 9) 5])], [("p", 0)], [], ["p"], [], false⟩
      "p" 0 [.effect (some [.num 1]) (some 9) 5] rfl rfl rfl).2.2
      (some [.num 1]) (some 9) 5 [.num 1] rfl rfl (by decide)
  · exact (useEffect_dependency_gating 6 (some [.num 2])
      ⟨[("p", [.effect (some [.num 1]) (some 9) 5])], [("p", 0)], [], ["p"], [], false⟩
      "p" 0 [.effect (some [.num 1]) (some 9) 5] rfl rfl rfl).2.1
      (some [.num 1]) (some 9) 5 rfl (Or.inr ⟨[.num 2], rfl, by decide⟩)

/-! ## Claim about hook garbage collection (C4) -/

theorem flatMap_congr_mem {α β : Type} (l : List α) (f g : α → List β)
    (h : ∀ x ∈ l, f x = g x) : l.flatMap f = l.flatMap g := by
  induction l with
  | nil => rfl
  | cons a r ih =>
    simp only [List.flatMap_cons]
    rw [h a (by simp), ih (fun x hx => h x (by simp [hx]))]

/-- Invariant of the `cleanupUnusedHooks` fold over a duplicate-free list of
paths: every folded path ends up deleted from both tables, all other paths
keep their entries, and the emitted events are exactly the concatenation of
each folded path's cleanup events (computed against the starting table). -/
theorem cleanupPathStep_fold (ps : List String) (hnd : ps.Nodup) :
    ∀ (c : Ctx) (acc : List Ev),
      (ps.foldl cleanupPathStep (c, acc)).2 =
        acc ++ ps.flatMap (fun p => cleanupEvsOf (alGet p c.hookState)) ∧
      (∀ p ∈ ps, alGet p (ps.foldl cleanupPathStep (c, acc)).1.hookState = none ∧
        alGet p (ps.foldl cleanupPathStep (c, acc)).1.cursor = none) ∧
      (∀ p, p ∉ ps →
        alGet p (ps.foldl cleanupPathStep (c, acc)).1.hookState = alGet p c.hookState ∧
        alGet p (ps.foldl cleanupPathStep (c, acc)).1.cursor = alGet p c.cursor) := by
  induction ps with
  | nil =>
    intro c acc
    exact ⟨by simp, by simp, fun p _ => ⟨rfl, rfl⟩⟩
  | cons q rest ih =>
    intro c acc
    have hqrest : q ∉ rest := (List.nodup_cons.mp hnd).1
    have hndr : rest.Nodup := (List.nodup_cons.mp hnd).2
    have hstep : cleanupPathStep (c, acc) q =
        ({ c with hookState := alErase q c.hookState, cursor := alErase q c.cursor },
          acc ++ cleanupEvsOf (alGet q c.hookState)) := rfl
    set c' : Ctx :=
      { c with hookState := alErase q c.hookState, cursor := alErase q c.cursor } with hc'
    have hfold : (q :: rest).foldl cleanupPathStep (c, acc) =
        rest.foldl cleanupPathStep (c', acc ++ cleanupEvsOf (alGet q c.hookState)) := by
      rw [List.foldl_cons, hstep]
    obtain ⟨ihev, ihmem, ihout⟩ := ih hndr c' (acc ++ cleanupEvsOf (alGet q c.hookState))
    refine ⟨?_, ?_, ?_⟩
    · rw [hfold, ihev]
      have hrest : rest.flatMap (fun p => cleanupEvsOf (alGet p c'.hookState)) =
          rest.flatMap (fun p => cleanupEvsOf (alGet p c.hookState)) := by
        refine flatMap_congr_mem rest _ _ (fun p hp => ?_)
        have hne : (p == q) = false := by
          simp only [beq_eq_false_iff_ne, ne_eq]
          intro hpq
          exact hqrest (hpq ▸ hp)
        rw [hc']
        show cleanupEvsOf (alGet p (alErase q c.hookState)) = _
        rw [alGet_alErase_ne q p c.hookState hne]
      rw [hrest, List.flatMap_cons, List.append_assoc]
    · intro p hp
      rcases List.mem_cons.mp hp with h | h
      · subst h
        have := ihout p hqrest
        rw [hfold, this.1, this.2, hc']
        constructor
        · show alGet p (alErase p c.hookState) = none
          exact alGet_alErase_self p c.hookState
        · show alGet p (alErase p c.cursor) = none
          exact alGet_alErase_self p c.cursor
      · rw [hfold]
        exact ihmem p h
    · intro p hp
      have hpq : (p == q) = false := by
        simp only [beq_eq_false_iff_ne, ne_eq]
        intro h
        exact hp (h ▸ List.mem_cons_self q rest)
      have hout := ihout p (fun h => hp (List.mem_cons_of_mem q h))
      rw [hfold, hout.1, hout.2, hc']
      constructor
      · show alGet p (alErase q c.hookState) = alGet p c.hookState
        exact alGet_alErase_ne q p c.hookState hpq
      · show alGet p (alErase q c.cursor) = alGet p c.cursor
        exact alGet_alErase_ne q p c.cursor hpq

/-- C4: after a pass, every path present in the slot table but absent from
the visited set has the cleanups of its effect slots invoked (in table order,
each path's slot order) and its slot sequence and cursor entry deleted;
visited paths keep their slots and cursors untouched. -/
theorem cleanupUnusedHooks_gc (ctx : Ctx)
    (hnd : (ctx.hookState.map Prod.fst).Nodup) :
    (∀ p, alHas p ctx.hookState = true → ctx.visited.contains p = false →
      alGet p (cleanupUnusedHooks ctx).1.hookState = none ∧
      alGet p (cleanupUnusedHooks ctx).1.cursor = none) ∧
    (∀ p, ctx.visited.contains p = true →
      alGet p (cleanupUnusedHooks ctx).1.hookState = alGet p ctx.hookState ∧
      alGet p (cleanupUnusedHooks ctx).1.cursor = alGet p ctx.cursor) ∧
    (cleanupUnusedHooks ctx).2 =
      ((ctx.hookState.map Prod.fst).filter (fun p => !(ctx.visited.contains p))).flatMap
        (fun p => cleanupEvsOf (alGet p ctx.hookState)) := by
  have hndf : ((ctx.hookState.map Prod.fst).filter
      (fun p => !(ctx.visited.contains p))).Nodup := hnd.filter _
  obtain ⟨hev, hmem, hout⟩ := cleanupPathStep_fold _ hndf ctx []
  refine ⟨?_, ?_, ?_⟩
  · intro p hhas hvis
    refine hmem p ?_
    rw [List.mem_filter]
    exact ⟨mem_keys_of_alGet_isSome p ctx.hookState hhas, by rw [hvis]; rfl⟩
  · intro p hvis
    refine hout p ?_
    rw [List.mem_filter]
    intro ⟨_, hcontra⟩
    rw [hvis] at hcontra
    simp at hcontra
  · unfold cleanupUnusedHooks
    simpa using hev

/-- Witness for C4: path `"a"` (unvisited, one effect slot with cleanup 3 and
one without) is collected — its cleanup runs and both its entries disappear —
while visited path `"b"` keeps its slot and cursor. -/
theorem cleanupUnusedHooks_gc_witness :
    (alGet "a" (cleanupUnusedHooks
        ⟨[("a", [.effect none (some 3) 7, .effect none none 8]), ("b", [.value (.num 1)])],
         [("a", 2), ("b", 1)], ["b"], [], [], false⟩).1.hookState = none ∧
     alGet "a" (cleanupUnusedHooks
        ⟨[("a", [.effect none (some 3) 7, .effect none none 8]), ("b", [.value (.num 1)])],
         [("a", 2), ("b", 1)], ["b"], [], [], false⟩).1.cursor = none) ∧
    (alGet "b" (cleanupUnusedHooks
        ⟨[("a", [.effect none (some 3) 7, .effect none none 8]), ("b", [.value (.num 1)])],
         [("a", 2), ("b", 1)], ["b"], [], [], false⟩).1.hookState = some [.value (.num 1)] ∧
     alGet "b" (cleanupUnusedHooks
        ⟨[("a", [.effect none (some 3) 7, .effect none none 8]), ("b", [.value (.num 1)])],
         [("a", 2), ("b", 1)], ["b"], [], [], false⟩).1.cursor = some 1) ∧
    (cleanupUnusedHooks
        ⟨[("a", [.effect none (some 3) 7, .effect none none 8]), ("b", [.value (.num 1)])],
         [("a", 2), ("b", 1)], ["b"], [], [], false⟩).2 = [.cleanupRun 3] := by
  have h := cleanupUnusedHooks_gc
    ⟨[("a", [.effect none (some 3) 7, .effect none none 8]), ("b", [.value (.num 1)])],
     [("a", 2), ("b", 1)], ["b"], [], [], false⟩ (by decide)
  refine ⟨h.1 "a" rfl rfl, ⟨?_, ?_⟩, ?_⟩
  · rw [(h.2.1 "b" rfl).1]
    rfl
  · rw [(h.2.1 "b" rfl).2]
    rfl
  · rw [h.2.2]
    rfl

/-! ## Claim about the per-pass reset (C8) -/

/-- C8: `render` begins by clearing the hook cursors, the visited set and the
component call stack, then runs the rest of the pass on that reset context;
the persisted slot table (and the pending effect queue) is left unchanged by
the reset. -/
theorem render_reset_clears_only_per_pass_state (env : REnv) (fuel : Nat)
    (root : Root) (st : St) :
    render env fuel root st = renderBody env fuel root { st with ctx := resetPass st.ctx } ∧
    (resetPass st.ctx).cursor = [] ∧
    (resetPass st.ctx).visited = [] ∧
    (resetPass st.ctx).componentStack = [] ∧
    (resetPass st.ctx).hookState = st.ctx.hookState ∧
    (resetPass st.ctx).effectQueue = st.ctx.effectQueue := by
  exact ⟨rfl, rfl, rfl, rfl, rfl, rfl⟩

/-! ## Claim about effect snapshotting and the deferred flush (C6) -/

/-- C6: the live effect queue is snapshotted and cleared before the deferred
flush is scheduled — a completed `render` always hands the whole queue to the
flush and leaves the live queue empty, so a subsequent pass cannot process
the same entries again; during the flush each queued `(path, cursor)` whose
slot is still a live effect slot runs its stored cleanup first, then its
effect, storing the returned cleanup; a queued entry whose slot no longer
exists (or is no longer an effect slot) is skipped silently. -/
theorem effect_snapshot_and_flush (er : Nat → Option Nat) :
    (∀ env fuel root st inst sched st',
      render env fuel root st = some (inst, sched, st') →
      st'.ctx.effectQueue = []) ∧
    (∀ ctx evs path cursor,
      (alGet path ctx.hookState).bind (fun s => s[cursor]?) = none →
      flushOne er ctx evs path cursor = (ctx, evs)) ∧
    (∀ ctx evs path cursor v,
      (alGet path ctx.hookState).bind (fun s => s[cursor]?) = some (.value v) →
      flushOne er ctx evs path cursor = (ctx, evs)) ∧
    (∀ ctx evs path cursor slots d cl e,
      alGet path ctx.hookState = some slots →
      slots[cursor]? = some (.effect d cl e) →
      flushOne er ctx evs path cursor =
        (let slots' := listSetPad (.value .undefined) slots cursor (.effect d (er e) e)
         ({ ctx with hookState := alSet path slots' ctx.hookState },
          evs ++ (match cl with | some c => [Ev.cleanupRun c] | none => []) ++ [Ev.effectRun e]))) := by
  refine ⟨?_, ?_, ?_, ?_⟩
  · intro env fuel root st inst sched st' h
    unfold render renderBody at h
    cases hrec : reconcile env fuel root.container root.inst root.node ""
        { st with ctx := resetPass st.ctx } with
    | none =>
      rw [hrec] at h
      cases h
    | some r =>
      rw [hrec] at h
      cases h
      rfl
  · intro ctx evs path cursor h
    unfold flushOne
    cases hget : alGet path ctx.hookState with
    | none => rfl
    | some slots =>
      rw [hget] at h
      simp only [Option.some_bind] at h
      simp only [h]
  · intro ctx evs path cursor v h
    unfold flushOne
    cases hget : alGet path ctx.hookState with
    | none => rfl
    | some slots =>
      rw [hget] at h
      simp only [Option.some_bind] at h
      simp only [h]
  · intro ctx evs path cursor slots d cl e hget hslot
    unfold flushOne
    rw [hget]
    simp only [hslot]

/-- Witness for C6: a one-text-node render leaves the live queue empty and
hands over the enqueued entries; flushing runs cleanup 3 then effect 7 and
stores the returned cleanup 4; a stale entry is skipped. -/
theorem effect_snapshot_and_flush_witness :
    (∃ inst sched st',
      render ⟨fun _ _ _ ctx => (none, ctx), fun _ => false⟩ 1
        ⟨0, none, none⟩
        ⟨1, [], ⟨[], [], [], [], [("p", 0)], false⟩, []⟩ = some (inst, sched, st') ∧
      st'.ctx.effectQueue = [] ∧ sched = [("p", 0)]) ∧
    (flushOne (fun _ => some 4) ⟨[], [], [], [], [], false⟩ [] "p" 0 =
      (⟨[], [], [], [], [], false⟩, [])) ∧
    (flushOne (fun _ => some 4)
        ⟨[("p", [.effect none (some 3) 7])], [], [], [], [], false⟩ [] "p" 0 =
      (⟨[("p", [.effect none (some 4) 7])], [], [], [], [], false⟩,
        [.cleanupRun 3, .effectRun 7])) := by
  have hmain := effect_snapshot_and_flush (fun _ => some 4)
  have hrender : render ⟨fun _ _ _ ctx => (none, ctx), fun _ => false⟩ 1
      ⟨0, none, none⟩ ⟨1, [], ⟨[], [], [], [], [("p", 0)], false⟩, []⟩ =
      some (none, [("p", 0)], ⟨1, [], ⟨[], [], [], [], [], false⟩, []⟩) := by
    unfold render renderBody reconcile
    rfl
  refine ⟨?_, ?_, ?_⟩
  · refine ⟨none, [("p", 0)], ⟨1, [], ⟨[], [], [], [], [], false⟩, []⟩, hrender, ?_, rfl⟩
    exact hmain.1 ⟨fun _ _ _ ctx => (none, ctx), fun _ => false⟩ 1
      ⟨0, none, none⟩
      ⟨1, [], ⟨[], [], [], [], [("p", 0)], false⟩, []⟩ _ _ _ hrender
  · exact hmain.2.1 ⟨[], [], [], [], [], false⟩ [] "p" 0 rfl
  · exact (hmain.2.2.2 ⟨[("p", [.effect none (some 3) 7])], [], [], [], [], false⟩ [] "p" 0
      [.effect none (some 3) 7] none (some 3) 7 rfl rfl)

/-! ## Claim about the reconcile dispatch (C1) -/

/-- C1: `reconcile` (with fuel available) dispatches exactly as the spec's
state machine: a null node detaches the old instance's widgets (a no-op on a
null instance) and yields null; a null instance mounts the node; a type or
key mismatch unmounts the old instance and mounts the new node at the same
path; otherwise the instance is updated in place. -/
theorem reconcile_dispatch (env : REnv) (f pd : Nat) (inst? : Option Instance)
    (node : Option VNode) (path : String) (st : St) :
    (reconcile env (f + 1) pd inst? node path st =
      (match node with
       | none => some (none, removeInstance pd inst? st)
       | some n =>
         match inst? with
         | none => (mount env f pd n path st).map (fun r => (some r.1, r.2))
         | some inst =>
           if ntypeEq inst.node.type n.type && inst.node.key == n.key then
             (update env f pd inst n path st).map (fun r => (some r.1, r.2))
           else
             (mount env f pd n path (removeInstance pd (some inst) st)).map
               (fun r => (some r.1, r.2)))) ∧
    removeInstance pd none st = st := by
  constructor
  · unfold reconcile
    cases node with
    | none =>
      cases inst? with
      | none => rfl
      | some i => rfl
    | some n =>
      cases inst? with
      | none => rfl
      | some i =>
        cases hA : ntypeEq i.node.type n.type <;>
          cases hB : i.node.key == n.key <;>
          simp [hA, hB]
  · rfl

/-! ## Claim about index-paired children reconciliation (C2) -/

/-- The child path as the spec states it: computed from the new child's
key/type/position when a new child exists at index `i`, otherwise the old
child's existing path (with the positional fallback the source applies to a
missing or empty path). -/
def childPathAt (parentPath : String) (oldCs : List (Option Instance))
    (newCs : List VNode) (i : Nat) : String :=
  match newCs[i]? with
  | some nc => createChildPath parentPath nc.key i (some nc.type) newCs
  | none =>
    match (oldCs[i]?).getD none with
    | some oc => if oc.path == "" then parentPath ++ ".i" ++ toString i else oc.path
    | none => parentPath ++ ".i" ++ toString i

/-- The spec's reading of children reconciliation: visit exactly the listed
indices, pairing old and new children strictly by position and reconciling
each pair at its `childPathAt` path. -/
def reconcileIndexed (env : REnv) (fuel pd : Nat) (parentPath : String)
    (oldCs : List (Option Instance)) (newCs : List VNode) :
    List Nat → St → Option (List (Option Instance) × St)
  | [], st => some ([], st)
  | i :: rest, st =>
    match reconcile env fuel pd ((oldCs[i]?).getD none) newCs[i]?
        (childPathAt parentPath oldCs newCs i) st with
    | none => none
    | some (ci, st) =>
      match reconcileIndexed env fuel pd parentPath oldCs newCs rest st with
      | none => none
      | some (rest', st) => some (ci :: rest', st)

theorem reconcileLoop_eq_indexed (env : REnv) (fuel pd : Nat) (pp : String)
    (oldCs : List (Option Instance)) (newCs : List VNode) :
    ∀ (rem i : Nat) (st : St),
      reconcileLoop env fuel pd pp oldCs newCs i rem st =
        reconcileIndexed env fuel pd pp oldCs newCs (List.range' i rem) st := by
  intro rem
  induction rem with
  | zero =>
    intro i st
    unfold reconcileLoop
    rfl
  | succ rem ih =>
    intro i st
    unfold reconcileLoop
    rw [List.range'_succ]
    show (match reconcile env fuel pd ((oldCs[i]?).getD none) newCs[i]?
            (childPathAt pp oldCs newCs i) st with
          | none => none
          | some (ci, st') =>
            match reconcileLoop env fuel pd pp oldCs newCs (i + 1) rem st' with
            | none => none
            | some (rest', st'') => some (ci :: rest', st'')) =
        reconcileIndexed env fuel pd pp oldCs newCs (i :: List.range' (i + 1) rem) st
    have hrhs : reconcileIndexed env fuel pd pp oldCs newCs (i :: List.range' (i + 1) rem) st =
        (match reconcile env fuel pd ((oldCs[i]?).getD none) newCs[i]?
            (childPathAt pp oldCs newCs i) st with
         | none => none
         | some (ci, st') =>
           match reconcileIndexed env fuel pd pp oldCs newCs (List.range' (i + 1) rem) st' with
           | none => none
           | some (rest', st'') => some (ci :: rest', st'')) := rfl
    rw [hrhs]
    cases reconcile env fuel pd ((oldCs[i]?).getD none) newCs[i]?
        (childPathAt pp oldCs newCs i) st with
    | none => rfl
    | some r =>
      obtain ⟨ci, st'⟩ := r
      show (match reconcileLoop env fuel pd pp oldCs newCs (i + 1) rem st' with
            | none => none
            | some (rest', st'') => some (ci :: rest', st'')) =
          (match reconcileIndexed env fuel pd pp oldCs newCs (List.range' (i + 1) rem) st' with
            | none => none
            | some (rest', st'') => some (ci :: rest', st''))
      rw [ih (i + 1) st']

/-- C2: `reconcileChildren` pairs old and new children strictly by index for
every index `0 ≤ i < max(oldCount, newCount)` — reconciling the i-th old
child against the i-th new child at the path `childPathAt` — with no
key-based matching or move detection. -/
theorem reconcileChildren_index_paired (env : REnv) (fuel pd : Nat)
    (pinst : Instance) (newCs : List VNode) (st : St) :
    reconcileChildren env fuel pd pinst newCs st =
      reconcileIndexed env fuel pd pinst.path pinst.children newCs
        (List.range (max pinst.children.length newCs.length)) st := by
  unfold reconcileChildren
  rw [List.range_eq_range']
  exact reconcileLoop_eq_indexed env fuel pd pinst.path pinst.children newCs _ 0 st

/-! ## Claim about second-pass idempotence (C7)

The claim quantifies over reconciling the same VNode tree twice with no
state change in between.  "No state change" is formalised by requiring the
component environment to be pure: each component body is a function of its
props alone and leaves the hook context untouched (with unchanged hook state
a component returns the same child it returned on the mount pass).  Trees are
required to be well-formed: JavaScript objects cannot carry duplicate prop
keys, so every node's prop keys are duplicate-free. -/

mutual
/-- Well-formedness of a VNode tree: duplicate-free prop keys, recursively. -/
def wfNode (n : VNode) : Bool :=
  match n with
  | .mk _ _ props children => decide ((props.map Prod.fst).Nodup) && wfChildren children
termination_by structural n

def wfChildren : List VNode → Bool
  | [] => true
  | c :: r => wfNode c && wfChildren r
termination_by structural l => l
end

/-- The component environment is pure: every body returns a child computed
from its props and children alone and returns the hook context unchanged
(the formal reading of "no state change in between"). -/
def PureEnv (env : REnv)
    (body : Nat → List (String × JsVal) → List VNode → Option VNode) : Prop :=
  ∀ cid props children ctx, env.comps cid props children ctx = (body cid props children, ctx)

/-- Every tree a component body can return is well-formed. -/
def WFBody (body : Nat → List (String × JsVal) → List VNode → Option VNode) : Prop :=
  ∀ cid props children cn, body cid props children = some cn → wfNode cn = true

/-- The only widget mutation the second pass is allowed to emit: a text
widget's `nodeValue` write. -/
def isTextWrite : Ev → Bool
  | .setNodeValue _ _ => true
  | _ => false

/-- The store changed only by appending text-widget writes to the trace. -/
def TraceOnlyText (st st' : St) : Prop :=
  ∃ extra, st'.trace = st.trace ++ extra ∧ ∀ e ∈ extra, isTextWrite e = true

theorem traceOnlyText_same {st st' : St} (h : st'.trace = st.trace) :
    TraceOnlyText st st' := ⟨[], by simp [h], by simp⟩

theorem traceOnlyText_trans {a b c : St} (h1 : TraceOnlyText a b)
    (h2 : TraceOnlyText b c) : TraceOnlyText a c := by
  obtain ⟨e1, hb, he1⟩ := h1
  obtain ⟨e2, hc, he2⟩ := h2
  refine ⟨e1 ++ e2, ?_, ?_⟩
  · rw [hc, hb, List.append_assoc]
  · intro e he
    rcases List.mem_append.mp he with h | h
    · exact he1 e h
    · exact he2 e h

theorem strictEq_refl (v : JsVal) : strictEq v v = true := by
  cases v <;> simp [strictEq]

theorem ntypeEq_refl (t : NType) : ntypeEq t t = true := by
  cases t <;> simp [ntypeEq]

theorem alHas_of_mem {κ α : Type} [BEq κ] [LawfulBEq κ] (k : κ) (v : α)
    (l : List (κ × α)) (h : (k, v) ∈ l) : alHas k l = true := by
  induction l with
  | nil => cases h
  | cons kv r ih =>
    unfold alHas alGet
    by_cases hk : kv.1 == k
    · simp [hk]
    · rcases List.mem_cons.mp h with he | hm
      · rw [← he] at hk
        simp at hk
      · have := ih hm
        unfold alHas at this
        simp only [hk, Bool.false_eq_true, if_false]
        exact this

theorem alGet_of_mem_nodup {κ α : Type} [BEq κ] [LawfulBEq κ] (k : κ) (v : α)
    (l : List (κ × α)) (h : (k, v) ∈ l) (hnd : (l.map Prod.fst).Nodup) :
    alGet k l = some v := by
  induction l with
  | nil => cases h
  | cons kv r ih =>
    have hnd' : (kv.1 :: r.map Prod.fst).Nodup := by
      rw [List.map_cons] at hnd
      exact hnd
    obtain ⟨hknotr, hndr⟩ := List.nodup_cons.mp hnd'
    rcases List.mem_cons.mp h with he | hm
    · rw [← he]
      unfold alGet
      simp
    · have hkne : (kv.1 == k) = false := by
        simp only [beq_eq_false_iff_ne, ne_eq]
        intro heq
        refine hknotr ?_
        rw [heq]
        exact List.mem_map.mpr ⟨(k, v), hm, rfl⟩
      unfold alGet
      rw [hkne]
      simp only [Bool.false_eq_true, if_false]
      exact ih hm hndr

theorem removeOldProps_fold_self (ind : String → Bool) (d : Nat)
    (P : List (String × JsVal)) :
    ∀ (l : List (String × JsVal)) (st : St),
      (∀ kv ∈ l, alHas kv.1 P = true) →
      l.foldl (fun st kv => removeOldProp ind d P kv.1 kv.2 st) st = st := by
  intro l
  induction l with
  | nil => intro st _; rfl
  | cons kv r ih =>
    intro st hmem
    have hstep : removeOldProp ind d P kv.1 kv.2 st = st := by
      unfold removeOldProp
      by_cases hc : kv.1 == "children"
      · simp [hc]
      · simp [hc, hmem kv (by simp)]
    rw [List.foldl_cons, hstep]
    exact ih st (fun x hx => hmem x (by simp [hx]))

theorem updateOneProps_fold_self (ind : String → Bool) (d : Nat)
    (P : List (String × JsVal)) :
    ∀ (l : List (String × JsVal)) (st : St),
      (∀ kv ∈ l, alGet kv.1 P = some kv.2) →
      l.foldl (fun st kv => updateOneProp ind d P kv.1 kv.2 st) st = st := by
  intro l
  induction l with
  | nil => intro st _; rfl
  | cons kv r ih =>
    intro st hmem
    have hstep : updateOneProp ind d P kv.1 kv.2 st = st := by
      unfold updateOneProp
      by_cases hc : kv.1 == "children"
      · simp [hc]
      · rw [hmem kv (by simp)]
        simp [hc, strictEq_refl]
    rw [List.foldl_cons, hstep]
    exact ih st (fun x hx => hmem x (by simp [hx]))

/-- Updating a host widget's props against themselves mutates nothing
(remove phase: every key is still present; add phase: every value is
`===`-unchanged). -/
theorem updateDomProps_self (ind : String → Bool) (d : Nat)
    (P : List (String × JsVal)) (st : St)
    (hnd : (P.map Prod.fst).Nodup) : updateDomProps ind d P P st = st := by
  unfold updateDomProps
  rw [removeOldProps_fold_self ind d P P st
    (fun kv hkv => alHas_of_mem kv.1 kv.2 P hkv)]
  exact updateOneProps_fold_self ind d P P st
    (fun kv hkv => alGet_of_mem_nodup kv.1 kv.2 P hkv hnd)

/-- The fuel-indexed relation "this instance is what mounting this node (with
this much fuel left) produces": the instance mirrors the node, host/text
instances own a widget, and children are index-aligned mounted instances of
the node's children (for a component: of the pure body's output). -/
def Good (body : Nat → List (String × JsVal) → List VNode → Option VNode) :
    Nat → Instance → VNode → Prop
  | 0, inst, node =>
    inst.node = node ∧
    (match node.type with
     | .text => inst.kind = .text ∧ inst.dom.isSome = true
     | .host _ => inst.kind = .host ∧ inst.dom.isSome = true ∧
         node.children = [] ∧ inst.children = []
     | .fragment => node.children = [] ∧ inst.children = []
     | .comp _ => False)
  | (g + 1), inst, node =>
    inst.node = node ∧
    (match node.type with
     | .text => inst.kind = .text ∧ inst.dom.isSome = true
     | .host _ => inst.kind = .host ∧ inst.dom.isSome = true ∧
         List.Forall₂ (fun oc c => ∃ ci, oc = some ci ∧ Good body g ci c)
           inst.children node.children
     | .fragment =>
         List.Forall₂ (fun oc c => ∃ ci, oc = some ci ∧ Good body g ci c)
           inst.children node.children
     | .comp c =>
       match body c.id node.props node.children with
       | none => inst.children = []
       | some cn =>
         match inst.children with
         | [some ci] => Good body g ci cn
         | _ => False)

theorem Good_node {body} {g : Nat} {inst : Instance} {node : VNode}
    (h : Good body g inst node) : inst.node = node := by
  cases g <;> exact h.1

theorem forall2_getElem? {α β : Type} {R : α → β → Prop} :
    ∀ {l1 : List α} {l2 : List β}, List.Forall₂ R l1 l2 →
      ∀ (i : Nat) (x : α) (y : β), l1[i]? = some x → l2[i]? = some y → R x y := by
  intro l1 l2 h
  induction h with
  | nil => intro i x y hx _; simp at hx
  | cons hR _ ih =>
    intro i x y hx hy
    match i with
    | 0 =>
      simp only [List.getElem?_cons_zero, Option.some_inj] at hx hy
      rw [← hx, ← hy]
      exact hR
    | n + 1 =>
      simp only [List.getElem?_cons_succ] at hx hy
      exact ih n x y hx hy

theorem wfChildren_mem : ∀ (l : List VNode), wfChildren l = true →
    ∀ c ∈ l, wfNode c = true := by
  intro l
  induction l with
  | nil => intro _ c hc; cases hc
  | cons c0 r ih =>
    intro h c hc
    unfold wfChildren at h
    rw [Bool.and_eq_true] at h
    rcases List.mem_cons.mp hc with he | hm
    · rw [he]; exact h.1
    · exact ih h.2 c hm

theorem wfNode_parts {t : NType} {k : Option String} {props : List (String × JsVal)}
    {children : List VNode} (h : wfNode (VNode.mk t k props children) = true) :
    (props.map Prod.fst).Nodup ∧ ∀ c ∈ children, wfNode c = true := by
  unfold wfNode at h
  rw [Bool.and_eq_true] at h
  exact ⟨by simpa using h.1, wfChildren_mem children h.2⟩

/-- Mount pass over children: every produced child instance is a mounted
image (`Good` at the child fuel level) of the corresponding new child. -/
theorem loop_mount_good (env : REnv)
    (body : Nat → List (String × JsVal) → List VNode → Option VNode) (g : Nat)
    (hM : ∀ pd node path st inst st', wfNode node = true →
      mount env g pd node path st = some (inst, st') → Good body g inst node) :
    ∀ (rem i : Nat) (newCs : List VNode) (pd : Nat) (pp : String) (st : St)
      (res : List (Option Instance)) (st' : St),
      i + rem = newCs.length →
      (∀ c ∈ newCs, wfNode c = true) →
      reconcileLoop env (g + 1) pd pp [] newCs i rem st = some (res, st') →
      List.Forall₂ (fun oc c => ∃ ci, oc = some ci ∧ Good body g ci c)
        res (newCs.drop i) := by
  intro rem
  induction rem with
  | zero =>
    intro i newCs pd pp st res st' hlen hwf hloop
    unfold reconcileLoop at hloop
    cases hloop
    rw [show i = newCs.length from by omega, List.drop_length]
    exact List.Forall₂.nil
  | succ rem ih =>
    intro i newCs pd pp st res st' hlen hwf hloop
    have hi : i < newCs.length := by omega
    have hnc : newCs[i]? = some newCs[i] := List.getElem?_eq_getElem hi
    have hstep : reconcileLoop env (g + 1) pd pp [] newCs i (rem + 1) st =
        (match reconcile env (g + 1) pd ((([] : List (Option Instance))[i]?).getD none)
            newCs[i]? (childPathAt pp [] newCs i) st with
         | none => none
         | some (c1, stx) =>
           match reconcileLoop env (g + 1) pd pp [] newCs (i + 1) rem stx with
           | none => none
           | some (rest0, sty) => some (c1 :: rest0, sty)) := by
      conv_lhs => unfold reconcileLoop
      rfl
    rw [hstep] at hloop
    have hcp : childPathAt pp ([] : List (Option Instance)) newCs i =
        createChildPath pp (newCs[i]).key i (some (newCs[i]).type) newCs := by
      unfold childPathAt
      rw [hnc]
    have hrc : reconcile env (g + 1) pd ((([] : List (Option Instance))[i]?).getD none)
        newCs[i]? (childPathAt pp [] newCs i) st =
        (mount env g pd newCs[i] (childPathAt pp [] newCs i) st).map
          (fun r => (some r.1, r.2)) := by
      rw [hnc]
      unfold reconcile
      rfl
    rw [hrc] at hloop
    cases hm : mount env g pd newCs[i] (childPathAt pp [] newCs i) st with
    | none =>
      rw [hm] at hloop
      cases hloop
    | some r =>
      rw [hm] at hloop
      obtain ⟨im, stm⟩ := r
      simp only [Option.map_some'] at hloop
      cases hrest : reconcileLoop env (g + 1) pd pp [] newCs (i + 1) rem stm with
      | none =>
        rw [hrest] at hloop
        cases hloop
      | some r2 =>
        rw [hrest] at hloop
        obtain ⟨rest', st2⟩ := r2
        have hp := Option.some.inj hloop
        have hres : res = some im :: rest' := (congrArg Prod.fst hp).symm
        subst hres
        rw [List.drop_eq_getElem_cons hi]
        refine List.Forall₂.cons ⟨im, rfl, ?_⟩
          (ih (i + 1) newCs pd pp stm rest' st2 (by omega) hwf hrest)
        exact hM pd newCs[i] (childPathAt pp [] newCs i) st im stm
          (hwf _ (List.getElem_mem hi)) hm

/-- Update pass over index-aligned mounted children: the loop succeeds and
emits only text writes. -/
theorem loop_update_tot (env : REnv)
    (body : Nat → List (String × JsVal) → List VNode → Option VNode) (g : Nat)
    (hU : ∀ inst node, Good body g inst node → wfNode node = true →
      ∀ pd path st, ∃ inst' st', update env g pd inst node path st = some (inst', st') ∧
        TraceOnlyText st st') :
    ∀ (rem i : Nat) (oldCs : List (Option Instance)) (newCs : List VNode)
      (pd : Nat) (pp : String) (st : St),
      i + rem = newCs.length →
      (∀ c ∈ newCs, wfNode c = true) →
      List.Forall₂ (fun oc c => ∃ ci, oc = some ci ∧ Good body g ci c) oldCs newCs →
      ∃ res st', reconcileLoop env (g + 1) pd pp oldCs newCs i rem st = some (res, st') ∧
        TraceOnlyText st st' := by
  intro rem
  induction rem with
  | zero =>
    intro i oldCs newCs pd pp st hlen hwf hF
    refine ⟨[], st, ?_, traceOnlyText_same rfl⟩
    unfold reconcileLoop
    rfl
  | succ rem ih =>
    intro i oldCs newCs pd pp st hlen hwf hF
    have hi : i < newCs.length := by omega
    have hio : i < oldCs.length := by
      rw [List.Forall₂.length_eq hF]
      exact hi
    have hnc : newCs[i]? = some newCs[i] := List.getElem?_eq_getElem hi
    have hoc : oldCs[i]? = some oldCs[i] := List.getElem?_eq_getElem hio
    obtain ⟨ci, hci, hgood⟩ := forall2_getElem? hF i _ _ hoc hnc
    have hnodeEq : ci.node = newCs[i] := Good_node hgood
    have hcp : childPathAt pp oldCs newCs i =
        createChildPath pp (newCs[i]).key i (some (newCs[i]).type) newCs := by
      unfold childPathAt
      rw [hnc]
    have hrec : reconcile env (g + 1) pd (some ci) (some newCs[i])
        (childPathAt pp oldCs newCs i) st =
        (update env g pd ci newCs[i] (childPathAt pp oldCs newCs i) st).map
          (fun r => (some r.1, r.2)) := by
      have hcond : (!(ntypeEq ci.node.type (newCs[i]).type) ||
          !(ci.node.key == (newCs[i]).key)) = false := by
        rw [hnodeEq, ntypeEq_refl]
        simp
      unfold reconcile
      show (if (!(ntypeEq ci.node.type (newCs[i]).type) ||
          !(ci.node.key == (newCs[i]).key)) = true then
            (mount env g pd newCs[i] (childPathAt pp oldCs newCs i)
              (removeInstance pd (some ci) st)).map (fun r => (some r.1, r.2))
          else
            (update env g pd ci newCs[i] (childPathAt pp oldCs newCs i) st).map
              (fun r => (some r.1, r.2))) = _
      rw [hcond]
      simp
    obtain ⟨ci', st1, hupd, htot1⟩ := hU ci newCs[i] hgood (hwf _ (List.getElem_mem hi))
      pd (childPathAt pp oldCs newCs i) st
    obtain ⟨rest', st2, hrest, htot2⟩ := ih (i + 1) oldCs newCs pd pp st1 (by omega) hwf hF
    refine ⟨some ci' :: rest', st2, ?_, traceOnlyText_trans htot1 htot2⟩
    have hstep : reconcileLoop env (g + 1) pd pp oldCs newCs i (rem + 1) st =
        (match reconcile env (g + 1) pd ((oldCs[i]?).getD none)
            newCs[i]? (childPathAt pp oldCs newCs i) st with
         | none => none
         | some (c1, stx) =>
           match reconcileLoop env (g + 1) pd pp oldCs newCs (i + 1) rem stx with
           | none => none
           | some (rest0, sty) => some (c1 :: rest0, sty)) := by
      conv_lhs => unfold reconcileLoop
      rfl
    rw [hstep, hoc]
    simp only [Option.getD_some]
    rw [hci, hnc, hrec, hupd]
    simp only [Option.map_some']
    rw [hrest]

/-- Dispatch fact: reconciling an instance against the very node it mirrors
takes the update branch. -/
theorem reconcile_as_update (env : REnv) (g pd : Nat) (ci : Instance) (cn : VNode)
    (p : String) (st : St) (hnodeEq : ci.node = cn) :
    reconcile env (g + 1) pd (some ci) (some cn) p st =
      (update env g pd ci cn p st).map (fun r => (some r.1, r.2)) := by
  have hcond : (!(ntypeEq ci.node.type cn.type) || !(ci.node.key == cn.key)) = false := by
    rw [hnodeEq, ntypeEq_refl]
    simp
  unfold reconcile
  show (if (!(ntypeEq ci.node.type cn.type) || !(ci.node.key == cn.key)) = true then
        (mount env g pd cn p (removeInstance pd (some ci) st)).map (fun r => (some r.1, r.2))
      else (update env g pd ci cn p st).map (fun r => (some r.1, r.2))) = _
  rw [hcond]
  simp

/-- The joint mount/update invariant, by strong induction on fuel: a
successful mount of a well-formed node yields a `Good` instance, and updating
a `Good` instance against its own node succeeds and emits only text-widget
writes. -/
theorem mount_good_update_tot (env : REnv)
    (body : Nat → List (String × JsVal) → List VNode → Option VNode)
    (hpure : PureEnv env body) (hwfb : WFBody body) :
    ∀ f : Nat,
      (∀ pd node path st inst st', wfNode node = true →
        mount env f pd node path st = some (inst, st') → Good body f inst node) ∧
      (∀ inst node, Good body f inst node → wfNode node = true →
        ∀ pd path st, ∃ inst' st', update env f pd inst node path st = some (inst', st') ∧
          TraceOnlyText st st') := by
  have hpureEq : ∀ cid props children ctx,
      env.comps cid props children ctx = (body cid props children, ctx) := hpure
  intro f
  induction f using Nat.strong_induction_on with
  | _ f IH =>
  constructor
  · -- mount ⇒ Good
    intro pd node path st inst st' hwf hm
    obtain ⟨t, k, props, children⟩ := node
    obtain ⟨hnd, hwfc⟩ := wfNode_parts hwf
    cases t with
    | text =>
      simp only [mount, VNode.type, VNode.key, VNode.props, createTextNodeD] at hm
      have hp := Option.some.inj hm
      have hinst : inst = Instance.mk .text (some st.nextId)
          (VNode.mk .text k props children) [] k path := (congrArg Prod.fst hp).symm
      subst hinst
      cases f with
      | zero => exact ⟨rfl, rfl, rfl⟩
      | succ g => exact ⟨rfl, rfl, rfl⟩
    | fragment =>
      simp only [mount, VNode.type, VNode.key, VNode.children, reconcileChildren,
        Instance.children, Instance.path, List.length_nil, Nat.zero_max] at hm
      cases hloop : reconcileLoop env f pd path [] children 0 children.length st with
      | none =>
        rw [hloop] at hm
        cases hm
      | some r =>
        rw [hloop] at hm
        obtain ⟨res, st1⟩ := r
        simp only [Option.map_some'] at hm
        have hp := Option.some.inj hm
        have hinst : inst = Instance.mk .fragment none
            (VNode.mk .fragment k props children) res k path := (congrArg Prod.fst hp).symm
        subst hinst
        cases f with
        | zero =>
          cases children with
          | nil =>
            unfold reconcileLoop at hloop
            cases hloop
            exact ⟨rfl, rfl, rfl⟩
          | cons c0 cs =>
            exfalso
            unfold reconcileLoop reconcile at hloop
            cases hloop
        | succ g =>
          refine ⟨rfl, ?_⟩
          have := loop_mount_good env body g (IH g (Nat.lt_succ_self g)).1
            children.length 0 children pd path st res st1 (by omega) hwfc hloop
          simpa using this
    | host tag =>
      simp only [mount, VNode.type, VNode.key, VNode.props, VNode.children,
        createElementD, reconcileChildren, Instance.children, Instance.path,
        List.length_nil, Nat.zero_max] at hm
      cases hloop : reconcileLoop env f st.nextId path [] children 0 children.length
          (setDomProps env.isDomProp st.nextId props
            { st with nextId := st.nextId + 1,
                      trace := st.trace ++ [.createElement st.nextId tag] }) with
      | none =>
        rw [hloop] at hm
        cases hm
      | some r =>
        rw [hloop] at hm
        obtain ⟨res, st1⟩ := r
        simp only [Option.map_some'] at hm
        have hp := Option.some.inj hm
        have hinst : inst = Instance.mk .host (some st.nextId)
            (VNode.mk (.host tag) k props children) res k path := (congrArg Prod.fst hp).symm
        subst hinst
        cases f with
        | zero =>
          cases children with
          | nil =>
            unfold reconcileLoop at hloop
            cases hloop
            exact ⟨rfl, rfl, rfl, rfl, rfl⟩
          | cons c0 cs =>
            exfalso
            unfold reconcileLoop reconcile at hloop
            cases hloop
        | succ g =>
          refine ⟨rfl, rfl, rfl, ?_⟩
          have := loop_mount_good env body g (IH g (Nat.lt_succ_self g)).1
            children.length 0 children st.nextId path _ res st1 (by omega) hwfc hloop
          simpa using this
    | comp c =>
      simp only [mount, VNode.type, VNode.key, VNode.props, VNode.children, hpureEq] at hm
      cases f with
      | zero =>
        exfalso
        unfold reconcile at hm
        simp at hm
      | succ g =>
        cases hb : body c.id props children with
        | none =>
          rw [hb] at hm
          have hrc : ∀ (cp : String) (stx : St),
              reconcile env (g + 1) pd none none cp stx = some (none, stx) := by
            intro cp stx
            unfold reconcile
            rfl
          rw [hrc] at hm
          simp only [Option.map_some'] at hm
          have hp := Option.some.inj hm
          have hinst : inst = Instance.mk .component none
              (VNode.mk (.comp c) k props children) [] k path := (congrArg Prod.fst hp).symm
          subst hinst
          refine ⟨rfl, ?_⟩
          show (match body c.id props children with
            | none => ([] : List (Option Instance)) = []
            | some cn =>
              match ([] : List (Option Instance)) with
              | [some ci] => Good body g ci cn
              | _ => False)
          rw [hb]
        | some cn =>
          rw [hb] at hm
          have hrc : ∀ (cp : String) (stx : St),
              reconcile env (g + 1) pd none (some cn) cp stx =
              (mount env g pd cn cp stx).map (fun r => (some r.1, r.2)) := by
            intro cp stx
            unfold reconcile
            rfl
          rw [hrc] at hm
          obtain ⟨q, hq, hq2⟩ := Option.map_eq_some'.mp hm
          obtain ⟨r, hmc, hr⟩ := Option.map_eq_some'.mp hq
          rw [← hr] at hq2
          have hinst : inst = Instance.mk .component none
              (VNode.mk (.comp c) k props children) [some r.1] k path :=
            (congrArg Prod.fst hq2).symm
          subst hinst
          refine ⟨rfl, ?_⟩
          show (match body c.id props children with
            | none => ([some r.1] : List (Option Instance)) = []
            | some cn =>
              match ([some r.1] : List (Option Instance)) with
              | [some ci] => Good body g ci cn
              | _ => False)
          rw [hb]
          exact (IH g (Nat.lt_succ_self g)).1 pd cn _ _ r.1 r.2
            (hwfb c.id props children cn hb) hmc
  · -- Good ⇒ update succeeds with only text writes
    intro inst node hgood hwf pd path st
    obtain ⟨t, k, props, children⟩ := node
    obtain ⟨hnd, hwfc⟩ := wfNode_parts hwf
    obtain ⟨ikind, idom, inode, ichildren, ikey, ipath⟩ := inst
    have hnode : inode = VNode.mk t k props children := Good_node hgood
    subst hnode
    cases t with
    | text =>
      have hparts : ikind = .text ∧ idom.isSome = true := by
        cases f with
        | zero => exact hgood.2
        | succ g => exact hgood.2
      obtain ⟨d, hd⟩ := Option.isSome_iff_exists.mp hparts.2
      subst hd
      refine ⟨Instance.mk ikind (some d) (VNode.mk .text k props children) ichildren ikey path,
        emit (.setNodeValue d (nodeValueOf props)) st, ?_, ?_⟩
      · unfold update
        rfl
      · refine ⟨[.setNodeValue d (nodeValueOf props)], rfl, ?_⟩
        intro e he
        simp only [List.mem_singleton] at he
        rw [he]
        rfl
    | fragment =>
      cases f with
      | zero =>
        have hch : children = [] := hgood.2.1
        have hich : ichildren = [] := hgood.2.2
        subst hch
        subst hich
        refine ⟨Instance.mk ikind idom (VNode.mk .fragment k props []) [] ikey path, st,
          ?_, traceOnlyText_same rfl⟩
        have hrc : reconcileChildren env 0 pd
            (Instance.mk ikind idom (VNode.mk .fragment k props []) [] ikey path) [] st =
            some ([], st) := by
          unfold reconcileChildren reconcileLoop
          rfl
        unfold update
        show (reconcileChildren env 0 pd
            (Instance.mk ikind idom (VNode.mk .fragment k props []) [] ikey path) [] st).map
            (fun r => (Instance.mk ikind idom (VNode.mk .fragment k props []) r.1 ikey path,
              r.2)) = _
        rw [hrc]
        rfl
      | succ g =>
        have hF := hgood.2
        have hlen : ichildren.length = children.length := List.Forall₂.length_eq hF
        obtain ⟨res, st1, hloop, htot⟩ := loop_update_tot env body g
          (IH g (Nat.lt_succ_self g)).2 children.length 0 ichildren children pd path st
          (by omega) hwfc hF
        refine ⟨Instance.mk ikind idom (VNode.mk .fragment k props children) res ikey path,
          st1, ?_, htot⟩
        have hrc : reconcileChildren env (g + 1) pd
            (Instance.mk ikind idom (VNode.mk .fragment k props children) ichildren ikey path)
            children st = some (res, st1) := by
          unfold reconcileChildren
          show reconcileLoop env (g + 1) pd path ichildren children 0
            (max ichildren.length children.length) st = some (res, st1)
          rw [hlen, Nat.max_self]
          exact hloop
        unfold update
        show (reconcileChildren env (g + 1) pd
            (Instance.mk ikind idom (VNode.mk .fragment k props children) ichildren ikey path)
            children st).map
            (fun r => (Instance.mk ikind idom (VNode.mk .fragment k props children) r.1 ikey path,
              r.2)) = _
        rw [hrc]
        rfl
    | host tag =>
      cases f with
      | zero =>
        have hkind : ikind = .host := hgood.2.1
        obtain ⟨d, hd⟩ := Option.isSome_iff_exists.mp hgood.2.2.1
        have hch : children = [] := hgood.2.2.2.1
        have hich : ichildren = [] := hgood.2.2.2.2
        subst hkind
        subst hd
        subst hch
        subst hich
        refine ⟨Instance.mk .host (some d) (VNode.mk (.host tag) k props []) [] ikey path, st,
          ?_, traceOnlyText_same rfl⟩
        have hrc : reconcileChildren env 0 d
            (Instance.mk .host (some d) (VNode.mk (.host tag) k props []) [] ikey path) [] st =
            some ([], st) := by
          unfold reconcileChildren reconcileLoop
          rfl
        unfold update
        show (let st := updateDomProps env.isDomProp d props props st
          (reconcileChildren env 0 d
            (Instance.mk .host (some d) (VNode.mk (.host tag) k props []) [] ikey path) [] st).map
            (fun r => (Instance.mk .host (some d) (VNode.mk (.host tag) k props []) r.1 ikey path,
              r.2))) = _
        rw [updateDomProps_self env.isDomProp d props st hnd]
        simp only [hrc, Option.map_some']
      | succ g =>
        have hkind : ikind = .host := hgood.2.1
        obtain ⟨d, hd⟩ := Option.isSome_iff_exists.mp hgood.2.2.1
        have hF := hgood.2.2.2
        subst hkind
        subst hd
        have hlen : ichildren.length = children.length := List.Forall₂.length_eq hF
        obtain ⟨res, st1, hloop, htot⟩ := loop_update_tot env body g
          (IH g (Nat.lt_succ_self g)).2 children.length 0 ichildren children d path st
          (by omega) hwfc hF
        refine ⟨Instance.mk .host (some d) (VNode.mk (.host tag) k props children) res ikey path,
          st1, ?_, htot⟩
        have hrc : reconcileChildren env (g + 1) d
            (Instance.mk .host (some d) (VNode.mk (.host tag) k props children) ichildren ikey path)
            children st = some (res, st1) := by
          unfold reconcileChildren
          show reconcileLoop env (g + 1) d path ichildren children 0
            (max ichildren.length children.length) st = some (res, st1)
          rw [hlen, Nat.max_self]
          exact hloop
        unfold update
        show (let st := updateDomProps env.isDomProp d props props st
          (reconcileChildren env (g + 1) d
            (Instance.mk .host (some d) (VNode.mk (.host tag) k props children) ichildren ikey path)
            children st).map
            (fun r => (Instance.mk .host (some d) (VNode.mk (.host tag) k props children) r.1 ikey
              path, r.2))) = _
        rw [updateDomProps_self env.isDomProp d props st hnd]
        simp only [hrc, Option.map_some']
    | comp c =>
      cases f with
      | zero => exact hgood.2.elim
      | succ g =>
        have hupd_eq : update env (g + 1) pd
            (Instance.mk ikind idom (VNode.mk (.comp c) k props children) ichildren ikey ipath)
            (VNode.mk (.comp c) k props children) path st =
            (reconcile env (g + 1) pd ((ichildren[0]?).getD none) (body c.id props children)
              (createChildPath path none 0 ((body c.id props children).map VNode.type)
                (match body c.id props children with | some cn => [cn] | none => []))
              { st with ctx :=
                  { (visitedAdd
                      { st.ctx with componentStack := st.ctx.componentStack ++ [path],
                                    cursor := alSet path 0 st.ctx.cursor } path) with
                    componentStack :=
                      (visitedAdd
                        { st.ctx with componentStack := st.ctx.componentStack ++ [path],
                                      cursor := alSet path 0 st.ctx.cursor } path
                        ).componentStack.dropLast } }).map
              (fun r => (Instance.mk ikind idom (VNode.mk (.comp c) k props children)
                (match r.1 with | some ci => [some ci] | none => []) ikey path, r.2)) := by
          conv_lhs => unfold update
          simp only [VNode.type, Instance.kind, Instance.dom, Instance.children, Instance.key,
            Instance.node, VNode.props, VNode.children]
          simp only [hpureEq]
        cases hb : body c.id props children with
        | none =>
          have h2 : (match body c.id props children with
              | none => ichildren = []
              | some cn =>
                match ichildren with
                | [some ci] => Good body g ci cn
                | _ => False) := hgood.2
          rw [hb] at h2
          subst h2
          rw [hb] at hupd_eq
          obtain ⟨stB, hq, htr⟩ : ∃ stB, update env (g + 1) pd
              (Instance.mk ikind idom (VNode.mk (.comp c) k props children) [] ikey ipath)
              (VNode.mk (.comp c) k props children) path st =
              Option.map (fun r => (Instance.mk ikind idom (VNode.mk (.comp c) k props children)
                (match r.1 with | some ci => [some ci] | none => []) ikey path, r.2))
                (reconcile env (g + 1) pd none none
                  (createChildPath path none 0 none []) stB) ∧
              stB.trace = st.trace :=
            ⟨_, hupd_eq, rfl⟩
          have hrc : reconcile env (g + 1) pd none none
              (createChildPath path none 0 none []) stB = some (none, stB) := by
            unfold reconcile
            rfl
          rw [hrc] at hq
          simp only [Option.map_some'] at hq
          exact ⟨_, _, hq, traceOnlyText_same htr⟩
        | some cn =>
          have h2 : (match body c.id props children with
              | none => ichildren = []
              | some cn =>
                match ichildren with
                | [some ci] => Good body g ci cn
                | _ => False) := hgood.2
          rw [hb] at h2
          obtain ⟨ci, hich, hgci⟩ : ∃ ci, ichildren = [some ci] ∧ Good body g ci cn := by
            cases ichildren with
            | nil => exact h2.elim
            | cons c0 tl =>
              cases c0 with
              | none => exact h2.elim
              | some ci0 =>
                cases tl with
                | nil => exact ⟨ci0, rfl, h2⟩
                | cons _ _ => exact h2.elim
          subst hich
          rw [hb] at hupd_eq
          obtain ⟨stB, hq, htr⟩ : ∃ stB, update env (g + 1) pd
              (Instance.mk ikind idom (VNode.mk (.comp c) k props children) [some ci] ikey ipath)
              (VNode.mk (.comp c) k props children) path st =
              Option.map (fun r => (Instance.mk ikind idom (VNode.mk (.comp c) k props children)
                (match r.1 with | some ci => [some ci] | none => []) ikey path, r.2))
                (reconcile env (g + 1) pd (some ci) (some cn)
                  (createChildPath path none 0 (some cn.type) [cn]) stB) ∧
              stB.trace = st.trace :=
            ⟨_, hupd_eq, rfl⟩
          rw [reconcile_as_update env g pd ci cn _ _ (Good_node hgci)] at hq
          obtain ⟨ci', st3, hupd, htot⟩ := (IH g (Nat.lt_succ_self g)).2 ci cn hgci
            (hwfb c.id props children cn hb) pd
            (createChildPath path none 0 (some cn.type) [cn]) stB
          rw [hupd] at hq
          simp only [Option.map_some'] at hq
          exact ⟨_, _, hq, traceOnlyText_trans (traceOnlyText_same htr) htot⟩

/-- C7 counterexample: the claim promises zero platform-widget mutations on
the second pass, including text writes; but updating a text instance writes
`nodeValue` unconditionally, so re-reconciling a single unchanged text node
emits a text write on the second pass. -/
theorem second_pass_text_write_counterexample :
    reconcile ⟨fun _ _ _ ctx => (none, ctx), fun _ => false⟩ 1 0 none
        (some (VNode.mk .text none [("nodeValue", .str "x")] [])) ""
        ⟨1, [], ⟨[], [], [], [], [], false⟩, []⟩ =
      some (some (Instance.mk .text (some 1)
          (VNode.mk .text none [("nodeValue", .str "x")] []) [] none ""),
        ⟨2, [(1, 0)], ⟨[], [], [], [], [], false⟩,
          [.createTextNode 1 "x", .appendChild 0 1]⟩) ∧
    reconcile ⟨fun _ _ _ ctx => (none, ctx), fun _ => false⟩ 1 0
        (some (Instance.mk .text (some 1)
          (VNode.mk .text none [("nodeValue", .str "x")] []) [] none ""))
        (some (VNode.mk .text none [("nodeValue", .str "x")] [])) ""
        ⟨2, [(1, 0)], ⟨[], [], [], [], [], false⟩, []⟩ =
      some (some (Instance.mk .text (some 1)
          (VNode.mk .text none [("nodeValue", .str "x")] []) [] none ""),
        ⟨2, [(1, 0)], ⟨[], [], [], [], [], false⟩, [.setNodeValue 1 "x"]⟩) ∧
    ([Ev.setNodeValue 1 "x"] : List Ev) ≠ [] := by
  refine ⟨?_, ?_, by simp⟩
  · unfold reconcile mount
    rfl
  · unfold reconcile update
    rfl

/-- C7 (amended): reconciling a well-formed VNode tree a second time against
the instance produced by its first reconciliation — with no state change in
between, formalised as a pure component environment — succeeds and performs
no widget creation, removal, property write, or listener mutation on the
second pass; the only widget mutations it emits are text-widget `nodeValue`
writes (which the source performs unconditionally on every text update). -/
theorem second_pass_only_text_writes (env : REnv)
    (body : Nat → List (String × JsVal) → List VNode → Option VNode)
    (hpure : PureEnv env body) (hwfb : WFBody body)
    (f pd : Nat) (node : VNode) (path : String) (st : St) (inst : Instance) (st₁ : St)
    (hwf : wfNode node = true)
    (h1 : reconcile env f pd none (some node) path st = some (some inst, st₁)) :
    ∀ st₂, ∃ inst₂ st₃,
      reconcile env f pd (some inst) (some node) path st₂ = some (some inst₂, st₃) ∧
      TraceOnlyText st₂ st₃ := by
  intro st₂
  match f with
  | 0 =>
    unfold reconcile at h1
    cases h1
  | g + 1 =>
    have hrc : reconcile env (g + 1) pd none (some node) path st =
        (mount env g pd node path st).map (fun r => (some r.1, r.2)) := by
      unfold reconcile
      rfl
    rw [hrc] at h1
    obtain ⟨r, hm, hr⟩ := Option.map_eq_some'.mp h1
    have hinst : r.1 = inst := by
      have := congrArg Prod.fst hr
      simpa using this
    have hgood : Good body g inst node := by
      rw [← hinst]
      exact (mount_good_update_tot env body hpure hwfb g).1 pd node path st r.1 r.2 hwf hm
    obtain ⟨inst₂, st₃, hupd, htot⟩ :=
      (mount_good_update_tot env body hpure hwfb g).2 inst node hgood hwf pd path st₂
    refine ⟨inst₂, st₃, ?_, htot⟩
    rw [reconcile_as_update env g pd inst node path st₂ (Good_node hgood), hupd]
    rfl

/-- Witness for C7's amended theorem: mounting `<div>` and reconciling it a
second time against its own output. -/
theorem second_pass_only_text_writes_witness :
    ∃ inst₂ st₃,
      reconcile ⟨fun _ _ _ ctx => (none, ctx), fun _ => false⟩ 2 0
        (some (Instance.mk .host (some 1) (VNode.mk (.host "div") none [] []) [] none ""))
        (some (VNode.mk (.host "div") none [] [])) ""
        ⟨2, [(1, 0)], ⟨[], [], [], [], [], false⟩, []⟩ = some (some inst₂, st₃) ∧
      TraceOnlyText ⟨2, [(1, 0)], ⟨[], [], [], [], [], false⟩, []⟩ st₃ := by
  have h1 : reconcile ⟨fun _ _ _ ctx => (none, ctx), fun _ => false⟩ 2 0 none
      (some (VNode.mk (.host "div") none [] [])) ""
      ⟨1, [], ⟨[], [], [], [], [], false⟩, []⟩ =
      some (some (Instance.mk .host (some 1) (VNode.mk (.host "div") none [] []) [] none ""),
        ⟨2, [(1, 0)], ⟨[], [], [], [], [], false⟩,
          [.createElement 1 "div", .appendChild 0 1]⟩) := by
    unfold reconcile mount reconcileChildren reconcileLoop
    rfl
  exact second_pass_only_text_writes ⟨fun _ _ _ ctx => (none, ctx), fun _ => false⟩
    (fun _ _ _ => none) (fun _ _ _ _ => rfl) (fun _ _ _ cn h => by cases h) 2 0
    (VNode.mk (.host "div") none [] []) ""
    ⟨1, [], ⟨[], [], [], [], [], false⟩, []⟩
    (Instance.mk .host (some 1) (VNode.mk (.host "div") none [] []) [] none "")
    ⟨2, [(1, 0)], ⟨[], [], [], [], [], false⟩,
      [.createElement 1 "div", .appendChild 0 1]⟩
    (by decide) h1 ⟨2, [(1, 0)], ⟨[], [], [], [], [], false⟩, []⟩
